import Mathlib

/-!
Verification development for the Slack conversation exporter (`export.py`).

The script is a sequential pipeline: fetch a user map, a group map and the
channel list from a cursor-paginated HTTP API, then for each selected channel
page through its message history, fetch the replies of every thread rooted in
that history, and write the messages as sorted, timestamped text lines.

Shallow embedding conventions:
* Each paginated loop is modelled as a function over the finite list of
  responses the server returns to the successive API calls the loop makes.
  An exhausted response list models a run in which the loop would keep
  calling the API (outcome `diverged`).
* Python dictionaries are association lists in insertion order; assignment
  to an existing key updates the value in place (`upsert`).
* Message timestamps (Slack `ts` strings, parsed with `float` by the code)
  are modelled by their numeric value as rationals.
* Side effects that the claims talk about (API calls with their cursor,
  `time.sleep`, console messages) are recorded in an event trace.
-/

/-- Result of one API call, as seen by a fetch loop: a successful page with
its items and optional next cursor, a rate-limit error with an optional
Retry-After header, or any other API error. -/
inductive ApiRes (α : Type) where
  | ok (items : List α) (nextCursor : Option String)
  | ratelimited (retryAfter : Option Nat)
  | apiError (msg : String)
deriving DecidableEq

/-- Observable events of a fetch loop: an API call carrying the cursor it
sends, a `time.sleep`, and a console print. -/
inductive Event where
  | request (cursor : Option String)
  | sleep (secs : ℚ)
  | log (msg : String)
deriving DecidableEq

/-- Outcome of a fetch loop: normal return, an uncaught exception
propagating out of the loop, or a run that never stops (the modelled
response list was exhausted with the loop still going). -/
inductive FetchOutcome (α : Type) where
  | done (value : α)
  | crashed (msg : String)
  | diverged
deriving DecidableEq

/-- Python truthiness of an optional cursor string: `None` and `""` are
falsy (`if not cursor: break`). -/
def cursorPresent : Option String → Bool
  | none => false
  | some s => s ≠ ""

/-- Python `a or b` for an optional string `a`: `None` and `""` fall
through to `b`. -/
def pyOr (a : Option String) (b : String) : String :=
  match a with
  | none => b
  | some s => if s = "" then b else s

/-- Python dict assignment `d[k] = v` on an association list: update the
value in place when the key exists, else append the new binding. -/
def upsert {κ ν : Type} [DecidableEq κ] : List (κ × ν) → κ → ν → List (κ × ν)
  | [], k, v => [(k, v)]
  | (k0, v0) :: rest, k, v =>
      if k0 = k then (k, v) :: rest else (k0, v0) :: upsert rest k v

/-- Python `d.get(k)` on an association list. -/
def dget {κ ν : Type} [DecidableEq κ] : List (κ × ν) → κ → Option ν
  | [], _ => none
  | (k0, v0) :: rest, k => if k0 = k then some v0 else dget rest k

/-- A member record from the user listing endpoint: `id` plus the optional
`real_name` and `name` fields. -/
structure Member where
  id : String
  real_name : Option String
  name : Option String
deriving DecidableEq

/-- Display name stored for a member:
`u.get("real_name") or u.get("name") or u["id"]`. -/
def memberDisplay (u : Member) : String :=
  pyOr u.real_name (pyOr u.name u.id)

/-- One page of members folded into the map `m` in page order. -/
def usersPage (m : List (String × String)) (members : List Member) :
    List (String × String) :=
  members.foldl (fun acc u => upsert acc u.id (memberDisplay u)) m

/-- `fetch_user_map` from `export.py`: page through `users.list`, building
`id -> display name`; on `ratelimited` sleep for `Retry-After` (default:
the current backoff, doubled up to 120 for the next time) and retry the
same cursor; on any other API error print a message and stop with the map
built so far. State: map built, cursor to send, current backoff. -/
def fetch_user_map : List (ApiRes Member) → List (String × String) →
    Option String → Nat → FetchOutcome (List (String × String)) × List Event
  | [], _, _, _ => (.diverged, [])
  | .ok members next :: rest, m, cursor, _ =>
      let m2 := usersPage m members
      if cursorPresent next then
        let out := fetch_user_map rest m2 next 10
        (out.1, .request cursor :: out.2)
      else
        (.done m2, [.request cursor])
  | .ratelimited ra :: rest, m, cursor, backoff =>
      let wait := ra.getD backoff
      let out := fetch_user_map rest m cursor (min (backoff * 2) 120)
      (out.1, .request cursor ::
        .log ("⏳ users.list rate-limited, sleeping " ++ toString wait ++ "s …") ::
        .sleep (wait : ℚ) :: out.2)
  | .apiError e :: _, m, cursor, _ =>
      (.done m, [.request cursor, .log ("⚠️ users.list failed: " ++ e)])

/-- `fetch_all_channels` from `export.py`: page through
`conversations.list` accumulating the channels. The loop body has no
`try`/`except`, so any `SlackApiError` — rate limiting included —
propagates out of the loop (and of `main`, which has no handler either). -/
def fetch_all_channels {α : Type} : List (ApiRes α) → List α → Option String →
    FetchOutcome (List α) × List Event
  | [], _, _ => (.diverged, [])
  | .ok items next :: rest, channels, cursor =>
      let ch2 := channels ++ items
      if cursorPresent next then
        let out := fetch_all_channels rest ch2 next
        (out.1, .request cursor :: out.2)
      else
        (.done ch2, [.request cursor])
  | .ratelimited _ :: _, _, cursor => (.crashed "ratelimited", [.request cursor])
  | .apiError e :: _, _, cursor => (.crashed e, [.request cursor])

/-- A message as the claims need it: numeric `ts`, optional `user`, `text`,
`subtype` and `thread_ts` fields. -/
structure Message where
  ts : ℚ
  user : Option String
  text : Option String
  subtype : Option String
  thread_ts : Option ℚ
deriving DecidableEq

/-- `fetch_thread` from `export.py`: page through `conversations.replies`
for one parent, dropping the first element of every page (`[1:]`); after a
page that has a further cursor, sleep `thread_sleep`; on `ratelimited`
sleep `Retry-After` (default 30) and retry the same cursor; on any other
API error print a message and stop with the replies collected so far.
`index` and `total` only appear in the rate-limit console message. -/
def fetch_thread (parent_ts : String) (index total : Nat) (thread_sleep : ℚ)
    (verbose : Bool) : List (ApiRes Message) → List Message → Option String →
    FetchOutcome (List Message) × List Event
  | [], _, _ => (.diverged, [])
  | .ok msgs next :: rest, replies, cursor =>
      let pre : List Event :=
        if verbose then
          [.log ("🔄 Fetching thread replies for parent_ts=" ++ parent_ts),
            .request cursor]
        else [.request cursor]
      let replies2 := replies ++ msgs.drop 1
      if cursorPresent next then
        let out := fetch_thread parent_ts index total thread_sleep verbose rest replies2 next
        (out.1, pre ++ .sleep thread_sleep :: out.2)
      else
        (.done replies2, pre)
  | .ratelimited ra :: rest, replies, cursor =>
      let pre : List Event :=
        if verbose then
          [.log ("🔄 Fetching thread replies for parent_ts=" ++ parent_ts),
            .request cursor]
        else [.request cursor]
      let wait := ra.getD 30
      let out := fetch_thread parent_ts index total thread_sleep verbose rest replies cursor
      (out.1, pre ++
        .log ("⏳ Rate-limited on thread " ++ toString index ++ "/" ++ toString total ++
          ", sleeping " ++ toString wait ++ "s …") ::
        .sleep (wait : ℚ) :: out.2)
  | .apiError e :: _, replies, cursor =>
      let pre : List Event :=
        if verbose then
          [.log ("🔄 Fetching thread replies for parent_ts=" ++ parent_ts),
            .request cursor]
        else [.request cursor]
      (.done replies, pre ++ [.log ("⚠️ conversations.replies failed: " ++ e)])

/-- The subtype filter of `fetch_channel_structured`:
`if "subtype" in m and m["subtype"] != "thread_broadcast": continue`. -/
def subtypeDrop (m : Message) : Bool :=
  match m.subtype with
  | none => false
  | some s => s ≠ "thread_broadcast"

/-- The thread-parent test of `fetch_channel_structured` and
`write_channel`: `"thread_ts" in m and m["ts"] == m["thread_ts"]`. -/
def isThreadParent (m : Message) : Bool :=
  match m.thread_ts with
  | none => false
  | some t => m.ts = t

/-- Whether a history message survives both the subtype filter and the
`start_ts <= tsf <= end_ts` range check. -/
def keepMsg (start_ts end_ts : ℚ) (m : Message) : Bool :=
  !subtypeDrop m && (decide (start_ts ≤ m.ts) && decide (m.ts ≤ end_ts))

/-- The `for m in r["messages"]` body of `fetch_channel_structured`: drop
subtyped non-broadcast messages, range-check the rest, append survivors to
`tops` and open an empty thread entry for thread parents. -/
def historyPage (start_ts end_ts : ℚ) :
    List Message → List Message × List (ℚ × List Message) →
    List Message × List (ℚ × List Message)
  | [], st => st
  | m :: rest, (tops, threads) =>
      if subtypeDrop m then historyPage start_ts end_ts rest (tops, threads)
      else if start_ts ≤ m.ts ∧ m.ts ≤ end_ts then
        historyPage start_ts end_ts rest
          (tops ++ [m], if isThreadParent m then upsert threads m.ts [] else threads)
      else historyPage start_ts end_ts rest (tops, threads)

/-- The `while True` history loop of `fetch_channel_structured`: page
through `conversations.history`; each non-final iteration ends with
`time.sleep(1)`; on `ratelimited` sleep `Retry-After` (default 30) and
retry the same cursor; on any other API error print a message and leave
the loop with what was collected (the function then still proceeds to the
thread-fetch phase). -/
def historyLoop (start_ts end_ts : ℚ) : List (ApiRes Message) →
    List Message → List (ℚ × List Message) → Option String →
    FetchOutcome (List Message × List (ℚ × List Message)) × List Event
  | [], _, _, _ => (.diverged, [])
  | .ok msgs next :: rest, tops, threads, cursor =>
      let st := historyPage start_ts end_ts msgs (tops, threads)
      if cursorPresent next then
        let out := historyLoop start_ts end_ts rest st.1 st.2 next
        (out.1, .request cursor :: .sleep 1 :: out.2)
      else
        (.done st, [.request cursor])
  | .ratelimited ra :: rest, tops, threads, cursor =>
      let wait := ra.getD 30
      let out := historyLoop start_ts end_ts rest tops threads cursor
      (out.1, .request cursor ::
        .log ("⏳ Rate-limited on history, sleeping " ++ toString wait ++ "s …") ::
        .sleep (wait : ℚ) :: .sleep 1 :: out.2)
  | .apiError e :: _, tops, threads, cursor =>
      (.done (tops, threads), [.request cursor,
        .log ("⚠️ conversations.history failed: " ++ e)])

/-- The `for idx, ts in enumerate(threads, 1)` phase of
`fetch_channel_structured`: for each thread key in insertion order, fetch
its replies (`threadResps` gives the response stream the API serves for
that parent) and assign them to the entry. `none` models a reply fetch
that never terminates. -/
def threadsFill (threadResps : ℚ → List (ApiRes Message)) (thread_sleep : ℚ)
    (verbose : Bool) (total : Nat) : List ℚ → Nat → List (ℚ × List Message) →
    Option (List (ℚ × List Message)) × List Event
  | [], _, threads => (some threads, [])
  | q :: rest, idx, threads =>
      let r := fetch_thread (toString q) idx total thread_sleep verbose
        (threadResps q) [] none
      match r.1 with
      | .done replies =>
          let out := threadsFill threadResps thread_sleep verbose total rest
            (idx + 1) (upsert threads q replies)
          (out.1, r.2 ++ out.2)
      | _ => (none, r.2)

/-- `fetch_channel_structured` from `export.py`: run the paginated history
loop, then fetch and attach the replies of every recorded thread, and
return `(tops, threads)`. -/
def fetch_channel_structured (histResps : List (ApiRes Message))
    (threadResps : ℚ → List (ApiRes Message)) (start_ts end_ts : ℚ)
    (thread_sleep : ℚ) (verbose : Bool) :
    FetchOutcome (List Message × List (ℚ × List Message)) × List Event :=
  let h := historyLoop start_ts end_ts histResps [] [] none
  match h.1 with
  | .done (tops, threads) =>
      let f := threadsFill threadResps thread_sleep verbose threads.length
        (threads.map (·.1)) 1 threads
      match f.1 with
      | some filled => (.done (tops, filled), h.2 ++ f.2)
      | none => (.diverged, h.2 ++ f.2)
  | .crashed e => (.crashed e, h.2)
  | .diverged => (.diverged, h.2)

/-- Outcome of `fetch_channel_structured` as a function of the history
loop outcome: the thread-fetch phase runs on whatever the history loop
returned. -/
def fcsOutcome (threadResps : ℚ → List (ApiRes Message)) (thread_sleep : ℚ)
    (verbose : Bool) (o : FetchOutcome (List Message × List (ℚ × List Message))) :
    FetchOutcome (List Message × List (ℚ × List Message)) :=
  match o with
  | .done (tops, threads) =>
      match (threadsFill threadResps thread_sleep verbose threads.length
          (threads.map (·.1)) 1 threads).1 with
      | some filled => .done (tops, filled)
      | none => .diverged
  | .crashed e => .crashed e
  | .diverged => .diverged

/-- Characters of the regex class `[A-Z0-9]`. -/
def isRunChar (c : Char) : Bool :=
  ('A' ≤ c && c ≤ 'Z') || ('0' ≤ c && c ≤ '9')

/-- Longest prefix of characters satisfying `p`, with the remaining
suffix — the greedy match of a `+`/`*` run. -/
def takeRun (p : Char → Bool) : List Char → List Char × List Char
  | [] => ([], [])
  | c :: rest =>
      if p c then
        let r := takeRun p rest
        (c :: r.1, r.2)
      else ([], c :: rest)

/-- Match of the regex `<@([UW][A-Z0-9]+)>` at the head of the text:
returns the captured identifier and the text after the token. The run is
greedy; since `>` is not in `[A-Z0-9]`, greediness is equivalent to taking
the maximal run. -/
def matchUserRef : List Char → Option (List Char × List Char)
  | '<' :: '@' :: c :: rest =>
      if c = 'U' ∨ c = 'W' then
        match takeRun isRunChar rest with
        | ([], _) => none
        | (run, '>' :: after) => some (c :: run, after)
        | _ => none
      else none
  | _ => none

/-- Match of the regex `<(U[A-Z0-9]+)>` at the head of the text. -/
def matchPlainRef : List Char → Option (List Char × List Char)
  | '<' :: 'U' :: rest =>
      match takeRun isRunChar rest with
      | ([], _) => none
      | (run, '>' :: after) => some ('U' :: run, after)
      | _ => none
  | _ => none

/-- Match of the regex `<!subteam^([A-Z0-9]+)>` at the head of the text:
after `<!` the literal characters `subteam^` must follow, then a nonempty
`[A-Z0-9]` run, then `>`. -/
def matchGroupRef : List Char → Option (List Char × List Char)
  | '<' :: '!' :: rest =>
      if rest.take 8 = ['s', 'u', 'b', 't', 'e', 'a', 'm', '^'] then
        match takeRun isRunChar (rest.drop 8) with
        | ([], _) => none
        | (run, '>' :: after) => some (run, after)
        | _ => none
      else none
  | _ => none

/-- First substitution pass of `resolve_text`:
`re.sub(r"<@([UW][A-Z0-9]+)>", lambda m: f"@{user_map.get(m.group(1), m.group(1))}", txt)`.
Like `re.sub`, it scans left to right, replaces non-overlapping matches and
does not rescan replacement text within the pass. The fuel argument only
bounds recursion depth; `subUser` supplies the text length, which always
suffices because every step consumes at least one character. -/
def subUserF (user_map : List (String × String)) : Nat → List Char → List Char
  | 0, l => l
  | _ + 1, [] => []
  | fuel + 1, c :: cs =>
      match matchUserRef (c :: cs) with
      | some (idc, after) =>
          '@' :: ((dget user_map (String.mk idc)).getD (String.mk idc)).data ++
            subUserF user_map fuel after
      | none => c :: subUserF user_map fuel cs

/-- The first substitution pass at its canonical fuel. -/
def subUser (user_map : List (String × String)) (l : List Char) : List Char :=
  subUserF user_map l.length l

/-- Second substitution pass of `resolve_text`:
`re.sub(r"<(U[A-Z0-9]+)>", lambda m: f"<{user_map.get(m.group(1), m.group(1))}>", txt)`. -/
def subPlainF (user_map : List (String × String)) : Nat → List Char → List Char
  | 0, l => l
  | _ + 1, [] => []
  | fuel + 1, c :: cs =>
      match matchPlainRef (c :: cs) with
      | some (idc, after) =>
          '<' :: ((dget user_map (String.mk idc)).getD (String.mk idc)).data ++
            '>' :: subPlainF user_map fuel after
      | none => c :: subPlainF user_map fuel cs

/-- The second substitution pass at its canonical fuel. -/
def subPlain (user_map : List (String × String)) (l : List Char) : List Char :=
  subPlainF user_map l.length l

/-- Third substitution pass of `resolve_text`:
`re.sub(r"<!subteam\^([A-Z0-9]+)>", lambda m: f"@{group_map.get(m.group(1), m.group(1))}", txt)`. -/
def subGroupF (group_map : List (String × String)) : Nat → List Char → List Char
  | 0, l => l
  | _ + 1, [] => []
  | fuel + 1, c :: cs =>
      match matchGroupRef (c :: cs) with
      | some (idc, after) =>
          '@' :: ((dget group_map (String.mk idc)).getD (String.mk idc)).data ++
            subGroupF group_map fuel after
      | none => c :: subGroupF group_map fuel cs

/-- The third substitution pass at its canonical fuel. -/
def subGroup (group_map : List (String × String)) (l : List Char) : List Char :=
  subGroupF group_map l.length l

/-- `resolve_text` from `export.py`: the three regex substitution passes in
source order (user reference, plain identifier reference, group
reference). -/
def resolve_text (txt : String) (user_map group_map : List (String × String)) :
    String :=
  String.mk (subGroup group_map (subPlain user_map (subUser user_map txt.data)))

/-- Decimal digit character for `n % 10`. -/
def digitChar10 (n : Nat) : Char := Char.ofNat (48 + n % 10)

/-- Zero-padded two-digit rendering (the `%m`, `%d`, `%H`, `%M`, `%S`
fields of `strftime`; all in `[0, 100)` for valid dates). -/
def pad2 (n : Nat) : String :=
  String.mk [digitChar10 (n / 10), digitChar10 n]

/-- Zero-padded four-digit rendering (the `%Y` field of `strftime`;
`datetime` years lie in `[1, 9999]`). -/
def pad4 (n : Nat) : String :=
  String.mk [digitChar10 (n / 1000), digitChar10 (n / 100),
    digitChar10 (n / 10), digitChar10 n]

/-- Gregorian calendar date for a day count relative to 1970-01-01
(the Howard Hinnant civil-from-days algorithm, the standard meaning of
`datetime.fromtimestamp` on a day boundary): year, month, day. -/
def civilFromDays (z0 : Int) : Int × Nat × Nat :=
  let z : Int := z0 + 719468
  let era : Int := Int.ediv z 146097
  let doe : Nat := (Int.emod z 146097).toNat
  let yoe : Nat := (doe - doe / 1460 + doe / 36524 - doe / 146096) / 365
  let doy : Nat := doe - (365 * yoe + yoe / 4 - yoe / 100)
  let mp : Nat := (5 * doy + 2) / 153
  let d : Nat := doy - (153 * mp + 2) / 5 + 1
  let m : Nat := if mp < 10 then mp + 3 else mp - 9
  let y : Int := (yoe : Int) + era * 400
  (if m ≤ 2 then y + 1 else y, m, d)

/-- `fmt_ts` from `export.py`:
`datetime.fromtimestamp(float(ts)).strftime("%Y-%m-%d %H:%M:%S")`.
The timestamp is modelled by its numeric value; the wall clock is taken at
UTC (`fromtimestamp` uses the host timezone, which only shifts the value
formatted). Fractional seconds are floored away by `%S`. -/
def fmt_ts (ts : ℚ) : String :=
  let t : Int := ⌊ts⌋
  let days : Int := Int.ediv t 86400
  let sod : Nat := (Int.emod t 86400).toNat
  let c := civilFromDays days
  pad4 c.1.toNat ++ "-" ++ pad2 c.2.1 ++ "-" ++ pad2 c.2.2 ++ " " ++
    pad2 (sod / 3600) ++ ":" ++ pad2 (sod % 3600 / 60) ++ ":" ++ pad2 (sod % 60)

/-- Stable insertion by the key of
`sorted(..., key=lambda x: float(x["ts"]))`: the new element goes before
the first element with a key not smaller than its own. -/
def insertByTs (m : Message) : List Message → List Message
  | [] => [m]
  | x :: xs => if m.ts ≤ x.ts then m :: x :: xs else x :: insertByTs m xs

/-- `sorted(messages, key=lambda x: float(x["ts"]))`: a stable ascending
sort by timestamp, matching the stable Python `sorted`. -/
def sortByTs (l : List Message) : List Message := l.foldr insertByTs []

/-- One line written by `write_channel`: a top-level message line or an
indented thread-reply line. -/
structure Entry where
  isReply : Bool
  msg : Message
deriving DecidableEq

/-- The lines `write_channel` emits for one top-level message: the message
itself, then — when it is a thread parent — its replies
(`threads.get(m["ts"], [])`) sorted by timestamp. -/
def blockOf (threads : List (ℚ × List Message)) (m : Message) : List Entry :=
  ⟨false, m⟩ ::
    (if isThreadParent m then
      (sortByTs ((dget threads m.ts).getD [])).map fun r => ⟨true, r⟩
    else [])

/-- The messages `write_channel` writes, in file order: top-level messages
sorted by timestamp, each thread parent immediately followed by its
replies sorted by timestamp. -/
def writeEntries (messages : List Message)
    (threads : List (ℚ × List Message)) : List Entry :=
  (sortByTs messages).flatMap (blockOf threads)

/-- `user_map.get(m.get("user"), "unknown")`. -/
def authorName (user_map : List (String × String)) (m : Message) : String :=
  (m.user.bind (dget user_map)).getD "unknown"

/-- The text written by `write_channel` for one entry:
`[fmt_ts] <author> text` plus the trailing blank line, reply lines
indented with four spaces and an arrow marker. -/
def renderLine (resolve : Bool) (user_map group_map : List (String × String))
    (e : Entry) : String :=
  let raw := e.msg.text.getD ""
  let txt := if resolve then resolve_text raw user_map group_map else raw
  (if e.isReply then "    ↳ " else "") ++ "[" ++ fmt_ts e.msg.ts ++ "] <" ++
    authorName user_map e.msg ++ "> " ++ txt ++ "\n\n"

/-- `write_channel` from `export.py`: the sequence of strings written to
the output file. -/
def write_channel (messages : List Message) (threads : List (ℚ × List Message))
    (resolve : Bool) (user_map group_map : List (String × String)) :
    List String :=
  (writeEntries messages threads).map (renderLine resolve user_map group_map)

/-! ### Views used by the statements: response streams of successful pages,
their traces, and the history filters. -/

/-- A response stream of successful pages, each with its next cursor. -/
def mkOkPages {α : Type} (pages : List (List α × String)) : List (ApiRes α) :=
  pages.map fun p => ApiRes.ok p.1 (some p.2)

/-- Trace of a run over successful pages: one request per page (each page
cursor feeding the next request), with the fixed inter-page events
`sep` after every non-final page. -/
def okTrace (sep : List Event) (c0 : Option String) : List String → List Event
  | [] => [Event.request c0]
  | c :: rest => Event.request c0 :: (sep ++ okTrace sep (some c) rest)

/-- Number of API calls recorded in a trace. -/
def numRequests (tr : List Event) : Nat :=
  tr.countP fun e => match e with
    | .request _ => true
    | _ => false

/-- Thread entries opened by the history loop for a message list: one
empty entry per surviving thread parent, in order. -/
def markerFold (start_ts end_ts : ℚ) (th : List (ℚ × List Message))
    (msgs : List Message) : List (ℚ × List Message) :=
  (msgs.filter fun m => keepMsg start_ts end_ts m && isThreadParent m).foldl
    (fun t m => upsert t m.ts []) th

/-- Whether a matcher fires at some position of the text — that is,
whether the text contains a substring matching the corresponding regex. -/
def hasMatch (f : List Char → Option (List Char × List Char)) :
    List Char → Bool
  | [] => false
  | c :: cs => (f (c :: cs)).isSome || hasMatch f cs

/-- Whether the text contains any mention token: a user reference
`<@U…>`/`<@W…>`, a plain identifier reference `<U…>`, or a group reference
`<!subteam^…>`. -/
def containsMention (l : List Char) : Bool :=
  hasMatch matchUserRef l || hasMatch matchPlainRef l || hasMatch matchGroupRef l

/-- Decimal digit character test. -/
def isDigitCh (c : Char) : Bool := '0' ≤ c && c ≤ '9'

/-- Check of the `YYYY-MM-DD HH:MM:SS` shape: 19 characters, digits in the
date and time positions, with `-`, a space and `:` as separators. -/
def tsFormatOK (s : String) : Bool :=
  match s.data with
  | [y1, y2, y3, y4, '-', m1, m2, '-', d1, d2, ' ',
      h1, h2, ':', n1, n2, ':', s1, s2] =>
      isDigitCh y1 && isDigitCh y2 && isDigitCh y3 && isDigitCh y4 &&
      isDigitCh m1 && isDigitCh m2 && isDigitCh d1 && isDigitCh d2 &&
      isDigitCh h1 && isDigitCh h2 && isDigitCh n1 && isDigitCh n2 &&
      isDigitCh s1 && isDigitCh s2
  | _ => false

/-! ### Theorems. -/

theorem takeRun_append (p : Char → Bool) (l : List Char) :
    (takeRun p l).1 ++ (takeRun p l).2 = l := by
  induction l with
  | nil => rfl
  | cons c rest ih =>
      by_cases h : p c <;> simp [takeRun, h, ih]

theorem takeRun_len (p : Char → Bool) (l : List Char) :
    (takeRun p l).2.length ≤ l.length := by
  induction l with
  | nil => simp [takeRun]
  | cons c rest ih =>
      by_cases h : p c <;> simp [takeRun, h]
      · exact ih.trans (Nat.le_succ _)

theorem numRequests_okTrace (sep : List Event) (c0 : Option String)
    (cs : List String) (hsep : numRequests sep = 0) :
    numRequests (okTrace sep c0 cs) = cs.length + 1 := by
  induction cs generalizing c0 with
  | nil => simp [okTrace, numRequests]
  | cons c rest ih =>
      simp only [okTrace, numRequests, List.countP_cons, List.countP_append] at *
      simp [ih, hsep]

theorem fetch_user_map_okRun (pre : List (List Member × String))
    (last : List Member) (rest : List (ApiRes Member))
    (m0 : List (String × String)) (c0 : Option String) (b0 : Nat)
    (hc : ∀ p ∈ pre, p.2 ≠ "") :
    fetch_user_map (mkOkPages pre ++ .ok last none :: rest) m0 c0 b0 =
      (.done (usersPage m0 ((pre.map (·.1)).flatten ++ last)),
        okTrace [] c0 (pre.map (·.2))) := by
  induction pre generalizing m0 c0 b0 with
  | nil => simp [mkOkPages, fetch_user_map, cursorPresent, okTrace]
  | cons p pre ih =>
      have hp : p.2 ≠ "" := hc p (by simp)
      have hrest : ∀ q ∈ pre, q.2 ≠ "" := fun q hq => hc q (by simp [hq])
      simp only [mkOkPages, List.map_cons, List.cons_append]
      simp only [fetch_user_map, cursorPresent, hp, ne_eq, not_false_eq_true, decide_True, if_true]
      rw [show mkOkPages pre = pre.map (fun p => ApiRes.ok p.1 (some p.2)) from rfl] at ih
      rw [ih _ _ _ hrest]
      simp [okTrace, usersPage, List.foldl_append]

theorem fetch_user_map_allCursors (pre : List (List Member × String))
    (m0 : List (String × String)) (c0 : Option String) (b0 : Nat)
    (hc : ∀ p ∈ pre, p.2 ≠ "") :
    (fetch_user_map (mkOkPages pre) m0 c0 b0).1 = .diverged := by
  induction pre generalizing m0 c0 b0 with
  | nil => simp [mkOkPages, fetch_user_map]
  | cons p pre ih =>
      have hp : p.2 ≠ "" := hc p (by simp)
      have hrest : ∀ q ∈ pre, q.2 ≠ "" := fun q hq => hc q (by simp [hq])
      simp only [mkOkPages, List.map_cons]
      simp only [fetch_user_map, cursorPresent, hp, ne_eq, not_false_eq_true, decide_True, if_true]
      exact ih _ _ _ hrest

theorem fetch_all_channels_okRun {α : Type} (pre : List (List α × String))
    (last : List α) (rest : List (ApiRes α)) (ch0 : List α) (c0 : Option String)
    (hc : ∀ p ∈ pre, p.2 ≠ "") :
    fetch_all_channels (mkOkPages pre ++ .ok last none :: rest) ch0 c0 =
      (.done (ch0 ++ (pre.map (·.1)).flatten ++ last),
        okTrace [] c0 (pre.map (·.2))) := by
  induction pre generalizing ch0 c0 with
  | nil => simp [mkOkPages, fetch_all_channels, cursorPresent, okTrace]
  | cons p pre ih =>
      have hp : p.2 ≠ "" := hc p (by simp)
      have hrest : ∀ q ∈ pre, q.2 ≠ "" := fun q hq => hc q (by simp [hq])
      simp only [mkOkPages, List.map_cons, List.cons_append]
      simp only [fetch_all_channels, cursorPresent, hp, ne_eq, not_false_eq_true, decide_True, if_true]
      rw [show mkOkPages pre = pre.map (fun p => ApiRes.ok p.1 (some p.2)) from rfl] at ih
      rw [ih _ _ hrest]
      simp [okTrace, List.append_assoc]

theorem fetch_all_channels_allCursors {α : Type} (pre : List (List α × String))
    (ch0 : List α) (c0 : Option String) (hc : ∀ p ∈ pre, p.2 ≠ "") :
    (fetch_all_channels (mkOkPages pre) ch0 c0).1 = .diverged := by
  induction pre generalizing ch0 c0 with
  | nil => simp [mkOkPages, fetch_all_channels]
  | cons p pre ih =>
      have hp : p.2 ≠ "" := hc p (by simp)
      have hrest : ∀ q ∈ pre, q.2 ≠ "" := fun q hq => hc q (by simp [hq])
      simp only [mkOkPages, List.map_cons]
      simp only [fetch_all_channels, cursorPresent, hp, ne_eq, not_false_eq_true, decide_True, if_true]
      exact ih _ _ hrest

theorem fetch_thread_okRun (pts : String) (index total : Nat) (ts_sleep : ℚ)
    (pre : List (List Message × String)) (last : List Message)
    (rest : List (ApiRes Message)) (acc : List Message) (c0 : Option String)
    (hc : ∀ p ∈ pre, p.2 ≠ "") :
    fetch_thread pts index total ts_sleep false
        (mkOkPages pre ++ .ok last none :: rest) acc c0 =
      (.done (acc ++ (pre.map (fun p => p.1.drop 1)).flatten ++ last.drop 1),
        okTrace [.sleep ts_sleep] c0 (pre.map (·.2))) := by
  induction pre generalizing acc c0 with
  | nil => simp [mkOkPages, fetch_thread, cursorPresent, okTrace]
  | cons p pre ih =>
      have hp : p.2 ≠ "" := hc p (by simp)
      have hrest : ∀ q ∈ pre, q.2 ≠ "" := fun q hq => hc q (by simp [hq])
      simp only [mkOkPages, List.map_cons, List.cons_append]
      simp only [fetch_thread, cursorPresent, hp, ne_eq, not_false_eq_true, decide_True, if_true]
      rw [show mkOkPages pre = pre.map (fun p => ApiRes.ok p.1 (some p.2)) from rfl] at ih
      rw [ih _ _ hrest]
      simp [okTrace, List.append_assoc]

theorem markerFold_append (s e : ℚ) (th : List (ℚ × List Message))
    (a b : List Message) :
    markerFold s e th (a ++ b) = markerFold s e (markerFold s e th a) b := by
  simp [markerFold, List.filter_append, List.foldl_append]

theorem historyPage_spec (s e : ℚ) (msgs : List Message) (tops : List Message)
    (th : List (ℚ × List Message)) :
    historyPage s e msgs (tops, th) =
      (tops ++ msgs.filter (keepMsg s e), markerFold s e th msgs) := by
  induction msgs generalizing tops th with
  | nil => simp [historyPage, markerFold]
  | cons m rest ih =>
      by_cases hd : subtypeDrop m
      · have hk : keepMsg s e m = false := by simp [keepMsg, hd]
        simp [historyPage, hd, ih, markerFold, List.filter_cons, hk]
      · by_cases hr : s ≤ m.ts ∧ m.ts ≤ e
        · have hk : keepMsg s e m = true := by simp [keepMsg, hd, hr.1, hr.2]
          by_cases hm : isThreadParent m
          · simp [historyPage, hd, hr, ih, markerFold, List.filter_cons, hk, hm]
          · simp [historyPage, hd, hr, ih, markerFold, List.filter_cons, hk, hm]
        · have hk : keepMsg s e m = false := by
            simp only [keepMsg, hd, Bool.not_false, Bool.true_and]
            rcases not_and_or.mp hr with h | h <;> simp [h]
          simp [historyPage, hd, hr, ih, markerFold, List.filter_cons, hk]

theorem historyLoop_okRun (s e : ℚ) (pre : List (List Message × String))
    (last : List Message) (rest : List (ApiRes Message)) (tops0 : List Message)
    (th0 : List (ℚ × List Message)) (c0 : Option String)
    (hc : ∀ p ∈ pre, p.2 ≠ "") :
    historyLoop s e (mkOkPages pre ++ .ok last none :: rest) tops0 th0 c0 =
      (.done (tops0 ++ ((pre.map (·.1)).flatten ++ last).filter (keepMsg s e),
          markerFold s e th0 ((pre.map (·.1)).flatten ++ last)),
        okTrace [Event.sleep 1] c0 (pre.map (·.2))) := by
  induction pre generalizing tops0 th0 c0 with
  | nil =>
      simp [mkOkPages, historyLoop, cursorPresent, okTrace, historyPage_spec]
  | cons p pre ih =>
      have hp : p.2 ≠ "" := hc p (by simp)
      have hrest : ∀ q ∈ pre, q.2 ≠ "" := fun q hq => hc q (by simp [hq])
      simp only [mkOkPages, List.map_cons, List.cons_append]
      simp only [historyLoop, cursorPresent, hp, ne_eq, not_false_eq_true,
        decide_True, if_true, historyPage_spec]
      rw [show mkOkPages pre = pre.map (fun p => ApiRes.ok p.1 (some p.2)) from rfl] at ih
      rw [ih _ _ _ hrest]
      simp [okTrace, List.filter_append, List.append_assoc, markerFold_append]

theorem historyLoop_allCursors (s e : ℚ) (pre : List (List Message × String))
    (tops0 : List Message) (th0 : List (ℚ × List Message)) (c0 : Option String)
    (hc : ∀ p ∈ pre, p.2 ≠ "") :
    (historyLoop s e (mkOkPages pre) tops0 th0 c0).1 = .diverged := by
  induction pre generalizing tops0 th0 c0 with
  | nil => simp [mkOkPages, historyLoop]
  | cons p pre ih =>
      have hp : p.2 ≠ "" := hc p (by simp)
      have hrest : ∀ q ∈ pre, q.2 ≠ "" := fun q hq => hc q (by simp [hq])
      simp only [mkOkPages, List.map_cons]
      simp only [historyLoop, cursorPresent, hp, ne_eq, not_false_eq_true,
        decide_True, if_true]
      exact ih _ _ _ hrest

theorem fetch_thread_allCursors (pts : String) (index total : Nat)
    (ts_sleep : ℚ) (pre : List (List Message × String)) (acc : List Message)
    (c0 : Option String) (hc : ∀ p ∈ pre, p.2 ≠ "") :
    (fetch_thread pts index total ts_sleep false (mkOkPages pre) acc c0).1 =
      .diverged := by
  induction pre generalizing acc c0 with
  | nil => simp [mkOkPages, fetch_thread]
  | cons p pre ih =>
      have hp : p.2 ≠ "" := hc p (by simp)
      have hrest : ∀ q ∈ pre, q.2 ≠ "" := fun q hq => hc q (by simp [hq])
      simp only [mkOkPages, List.map_cons]
      simp only [fetch_thread, cursorPresent, hp, ne_eq, not_false_eq_true, decide_True, if_true]
      exact ih _ _ hrest


/-- C1. The claim states that for every paginated fetch the aggregated
result equals the concatenation of the items returned across pages. This
is false for `fetch_thread`: a single-page thread whose page holds exactly
the parent message yields `[]`, not the concatenation `[parent]`, because
the loop drops the first element of every page. -/
theorem c1_counterexample :
    (fetch_thread "1" 1 1 0 false
        [ApiRes.ok [⟨1, none, some "parent", none, some 1⟩] none] [] none).1 =
      .done [] ∧
    FetchOutcome.done ([] : List Message) ≠
      .done [⟨1, none, some "parent", none, some 1⟩] := by
  constructor
  · decide
  · decide

/-- C1 (amended). For every paginated fetch over successful pages, the
loop terminates exactly when a response carries no next cursor (one
request per page when the last page has no cursor; no termination while
every page carries one), and the aggregate is: for `fetch_user_map` the
map built from the concatenated members, for `fetch_all_channels` the
concatenation of the pages, for `fetch_thread` the concatenation with the
first element of each page dropped, and for the history loop of
`fetch_channel_structured` the concatenation filtered by the subtype and
date-range conditions. -/
theorem c1_pagination :
    (∀ (pre : List (List Member × String)) (last : List Member)
        (rest : List (ApiRes Member)), (∀ p ∈ pre, p.2 ≠ "") →
      fetch_user_map (mkOkPages pre ++ .ok last none :: rest) [] none 10 =
        (.done (usersPage [] ((pre.map (·.1)).flatten ++ last)),
          okTrace [] none (pre.map (·.2))) ∧
      numRequests
          (fetch_user_map (mkOkPages pre ++ .ok last none :: rest) [] none 10).2 =
        pre.length + 1 ∧
      (fetch_user_map (mkOkPages pre) [] none 10).1 = .diverged) ∧
    (∀ (α : Type) (pre : List (List α × String)) (last : List α)
        (rest : List (ApiRes α)), (∀ p ∈ pre, p.2 ≠ "") →
      fetch_all_channels (mkOkPages pre ++ .ok last none :: rest) [] none =
        (.done ((pre.map (·.1)).flatten ++ last),
          okTrace [] none (pre.map (·.2))) ∧
      numRequests
          (fetch_all_channels (mkOkPages pre ++ .ok last none :: rest) [] none).2 =
        pre.length + 1 ∧
      (fetch_all_channels (mkOkPages pre) [] none).1 = .diverged) ∧
    (∀ (pts : String) (i t : Nat) (s : ℚ) (pre : List (List Message × String))
        (last : List Message) (rest : List (ApiRes Message)),
        (∀ p ∈ pre, p.2 ≠ "") →
      fetch_thread pts i t s false (mkOkPages pre ++ .ok last none :: rest) [] none =
        (.done ((pre.map (fun p => p.1.drop 1)).flatten ++ last.drop 1),
          okTrace [.sleep s] none (pre.map (·.2))) ∧
      numRequests
          (fetch_thread pts i t s false
            (mkOkPages pre ++ .ok last none :: rest) [] none).2 =
        pre.length + 1 ∧
      (fetch_thread pts i t s false (mkOkPages pre) [] none).1 = .diverged) ∧
    (∀ (s e : ℚ) (pre : List (List Message × String)) (last : List Message)
        (rest : List (ApiRes Message)), (∀ p ∈ pre, p.2 ≠ "") →
      historyLoop s e (mkOkPages pre ++ .ok last none :: rest) [] [] none =
        (.done (((pre.map (·.1)).flatten ++ last).filter (keepMsg s e),
            markerFold s e [] ((pre.map (·.1)).flatten ++ last)),
          okTrace [Event.sleep 1] none (pre.map (·.2))) ∧
      numRequests
          (historyLoop s e (mkOkPages pre ++ .ok last none :: rest) [] [] none).2 =
        pre.length + 1 ∧
      (historyLoop s e (mkOkPages pre) [] [] none).1 = .diverged) := by
  refine ⟨?_, ?_, ?_, ?_⟩
  · intro pre last rest hc
    have h := fetch_user_map_okRun pre last rest [] none 10 hc
    refine ⟨h, ?_, fetch_user_map_allCursors pre [] none 10 hc⟩
    rw [h, numRequests_okTrace [] none (pre.map (·.2)) (by decide)]
    simp
  · intro α pre last rest hc
    have h := fetch_all_channels_okRun pre last rest [] none hc
    refine ⟨by simpa using h, ?_, fetch_all_channels_allCursors pre [] none hc⟩
    rw [h, numRequests_okTrace [] none (pre.map (·.2)) (by decide)]
    simp
  · intro pts i t s pre last rest hc
    have h := fetch_thread_okRun pts i t s pre last rest [] none hc
    refine ⟨by simpa using h, ?_, fetch_thread_allCursors pts i t s pre [] none hc⟩
    rw [h, numRequests_okTrace [.sleep s] none (pre.map (·.2)) (by rfl)]
    simp
  · intro s e pre last rest hc
    have h := historyLoop_okRun s e pre last rest [] [] none hc
    refine ⟨h, ?_, historyLoop_allCursors s e pre [] [] none hc⟩
    rw [h, numRequests_okTrace [Event.sleep 1] none (pre.map (·.2)) (by decide)]
    simp

/-- C1 witness: the amended claim evaluated on a concrete two-page user
listing. -/
theorem c1_pagination_witness :
    fetch_user_map
        (mkOkPages [([⟨"U1", some "Alice", none⟩], "c")] ++
          .ok [⟨"U2", none, none⟩] none :: []) [] none 10 =
      (.done [("U1", "Alice"), ("U2", "U2")], okTrace [] none ["c"]) := by
  have h := (c1_pagination.1 [([⟨"U1", some "Alice", none⟩], "c")]
    [⟨"U2", none, none⟩] [] (by decide)).1
  rw [h]
  decide

/-- C10. `fetch_thread` returns the concatenation of the fetched pages
with the first element of each page removed: a single-page thread of the
form `parent :: replies` yields exactly `replies`, and in general the
first message of every page is excluded. -/
theorem c10_thread_drop_first :
    (∀ (pts : String) (i t : Nat) (s : ℚ) (parent : Message)
        (replies : List Message),
      (fetch_thread pts i t s false [.ok (parent :: replies) none] [] none).1 =
        .done replies) ∧
    (∀ (pts : String) (i t : Nat) (s : ℚ) (pre : List (List Message × String))
        (last : List Message) (rest : List (ApiRes Message)),
        (∀ p ∈ pre, p.2 ≠ "") →
      (fetch_thread pts i t s false
          (mkOkPages pre ++ .ok last none :: rest) [] none).1 =
        .done ((pre.map (fun p => p.1.drop 1)).flatten ++ last.drop 1)) := by
  constructor
  · intro pts i t s parent replies
    have h := fetch_thread_okRun pts i t s [] (parent :: replies) [] [] none
      (by simp)
    simp only [mkOkPages, List.map_nil, List.nil_append] at h
    rw [h]
    simp
  · intro pts i t s pre last rest hc
    rw [fetch_thread_okRun pts i t s pre last rest [] none hc]
    simp

/-- C10 witness: a two-page thread; the first element of each page is
dropped. -/
theorem c10_thread_drop_first_witness :
    (fetch_thread "1" 1 1 0 false
        (mkOkPages [([⟨1, none, some "p", none, some 1⟩,
            ⟨2, none, some "r1", none, some 1⟩], "c")] ++
          .ok [⟨2, none, some "r1", none, some 1⟩,
            ⟨3, none, some "r2", none, some 1⟩] none :: []) [] none).1 =
      .done [⟨2, none, some "r1", none, some 1⟩,
        ⟨3, none, some "r2", none, some 1⟩] := by
  have h := c10_thread_drop_first.2 "1" 1 1 0
    [([⟨1, none, some "p", none, some 1⟩, ⟨2, none, some "r1", none, some 1⟩], "c")]
    [⟨2, none, some "r1", none, some 1⟩, ⟨3, none, some "r2", none, some 1⟩]
    [] (by decide)
  rw [h]
  decide

theorem fetch_user_map_backoff (rs : List (ApiRes Member))
    (m : List (String × String)) (c : Option String) (b b' : Nat) :
    (fetch_user_map rs m c b).1 = (fetch_user_map rs m c b').1 := by
  induction rs generalizing m c b b' with
  | nil => rfl
  | cons r rest ih =>
      cases r with
      | ok members next =>
          by_cases hn : cursorPresent next <;> simp [fetch_user_map, hn]
      | ratelimited ra =>
          simp only [fetch_user_map]
          exact ih _ _ _ _
      | apiError e => simp [fetch_user_map]

theorem fetch_user_map_rl_skip (xs : List (ApiRes Member)) (ra : Option Nat)
    (ys : List (ApiRes Member)) (m : List (String × String)) (c : Option String)
    (b : Nat) :
    (fetch_user_map (xs ++ .ratelimited ra :: ys) m c b).1 =
      (fetch_user_map (xs ++ ys) m c b).1 := by
  induction xs generalizing m c b with
  | nil =>
      simp only [List.nil_append, fetch_user_map]
      exact fetch_user_map_backoff ys m c _ b
  | cons r rest ih =>
      cases r with
      | ok members next =>
          by_cases hn : cursorPresent next <;> simp [fetch_user_map, hn, ih]
      | ratelimited ra2 =>
          simp only [List.cons_append, fetch_user_map]
          exact ih _ _ _
      | apiError e => simp [fetch_user_map]

theorem fetch_thread_rl_skip (pts : String) (i t : Nat) (s : ℚ) (v : Bool)
    (xs : List (ApiRes Message)) (ra : Option Nat) (ys : List (ApiRes Message))
    (acc : List Message) (c : Option String) :
    (fetch_thread pts i t s v (xs ++ .ratelimited ra :: ys) acc c).1 =
      (fetch_thread pts i t s v (xs ++ ys) acc c).1 := by
  induction xs generalizing acc c with
  | nil => simp [fetch_thread]
  | cons r rest ih =>
      cases r with
      | ok msgs next =>
          by_cases hn : cursorPresent next <;> simp [fetch_thread, hn, ih]
      | ratelimited ra2 =>
          simp only [List.cons_append, fetch_thread]
          exact ih _ _
      | apiError e => simp [fetch_thread]

theorem historyLoop_rl_skip (s e : ℚ) (xs : List (ApiRes Message))
    (ra : Option Nat) (ys : List (ApiRes Message)) (tops : List Message)
    (th : List (ℚ × List Message)) (c : Option String) :
    (historyLoop s e (xs ++ .ratelimited ra :: ys) tops th c).1 =
      (historyLoop s e (xs ++ ys) tops th c).1 := by
  induction xs generalizing tops th c with
  | nil => simp [historyLoop]
  | cons r rest ih =>
      cases r with
      | ok msgs next =>
          by_cases hn : cursorPresent next <;> simp [historyLoop, hn, ih]
      | ratelimited ra2 =>
          simp only [List.cons_append, historyLoop]
          exact ih _ _ _
      | apiError e2 => simp [historyLoop]

theorem fetch_channel_structured_outcome (hr : List (ApiRes Message))
    (oracle : ℚ → List (ApiRes Message)) (s e ts : ℚ) (v : Bool) :
    (fetch_channel_structured hr oracle s e ts v).1 =
      fcsOutcome oracle ts v (historyLoop s e hr [] [] none).1 := by
  rcases hH : historyLoop s e hr [] [] none with ⟨o, tr⟩
  simp only [fetch_channel_structured, fcsOutcome, hH]
  cases o with
  | done val =>
      rcases val with ⟨tops, threads⟩
      cases hf : (threadsFill oracle ts v threads.length
          (threads.map (·.1)) 1 threads).1 <;> simp [hf]
  | crashed msg => simp
  | diverged => simp

/-- C2. The claim states that in every fetch loop a rate-limited call is
retried after a sleep. This is false for the channel-listing loop:
`fetch_all_channels` has no rate-limit handler, so a `ratelimited`
response crashes the run — the trace shows a single request, no sleep and
no retry, even though a further page was available. -/
theorem c2_counterexample :
    fetch_all_channels
        [ApiRes.ratelimited (some 7), ApiRes.ok ([3] : List Nat) none] [] none =
      (.crashed "ratelimited", [.request none]) := by
  decide

/-- C2 (amended). In every fetch loop that handles rate limiting — user
listing, thread replies, and the history loop of
`fetch_channel_structured` (channel listing has no handler and crashes) —
a rate-limited call sleeps for the Retry-After duration (or the default:
the adaptive backoff for users, 30 seconds otherwise) and then reissues
the request with the same cursor and the same accumulated state, so a
rate-limit event neither skips nor duplicates a page: deleting a
rate-limited response from the stream leaves the result unchanged. -/
theorem c2_ratelimit :
    (∀ (xs : List (ApiRes Member)) (ra : Option Nat) (ys : List (ApiRes Member))
        (m : List (String × String)) (c : Option String) (b : Nat),
      (fetch_user_map (xs ++ .ratelimited ra :: ys) m c b).1 =
        (fetch_user_map (xs ++ ys) m c b).1) ∧
    (∀ (pts : String) (i t : Nat) (s : ℚ) (v : Bool) (xs : List (ApiRes Message))
        (ra : Option Nat) (ys : List (ApiRes Message)) (acc : List Message)
        (c : Option String),
      (fetch_thread pts i t s v (xs ++ .ratelimited ra :: ys) acc c).1 =
        (fetch_thread pts i t s v (xs ++ ys) acc c).1) ∧
    (∀ (xs : List (ApiRes Message)) (ra : Option Nat) (ys : List (ApiRes Message))
        (oracle : ℚ → List (ApiRes Message)) (s e ts : ℚ) (v : Bool),
      (fetch_channel_structured (xs ++ .ratelimited ra :: ys) oracle s e ts v).1 =
        (fetch_channel_structured (xs ++ ys) oracle s e ts v).1) ∧
    (∀ (ra : Option Nat) (rest : List (ApiRes Member))
        (m : List (String × String)) (c : Option String) (b : Nat),
      (fetch_user_map (.ratelimited ra :: rest) m c b).1 =
        (fetch_user_map rest m c (min (b * 2) 120)).1 ∧
      ∃ w, (fetch_user_map (.ratelimited ra :: rest) m c b).2 =
        .request c :: .log w :: .sleep (ra.getD b : ℚ) ::
          (fetch_user_map rest m c (min (b * 2) 120)).2) ∧
    (∀ (pts : String) (i t : Nat) (s : ℚ) (ra : Option Nat)
        (rest : List (ApiRes Message)) (acc : List Message) (c : Option String),
      (fetch_thread pts i t s false (.ratelimited ra :: rest) acc c).1 =
        (fetch_thread pts i t s false rest acc c).1 ∧
      ∃ w, (fetch_thread pts i t s false (.ratelimited ra :: rest) acc c).2 =
        .request c :: .log w :: .sleep (ra.getD 30 : ℚ) ::
          (fetch_thread pts i t s false rest acc c).2) ∧
    (∀ (s e : ℚ) (ra : Option Nat) (rest : List (ApiRes Message))
        (tops : List Message) (th : List (ℚ × List Message)) (c : Option String),
      (historyLoop s e (.ratelimited ra :: rest) tops th c).1 =
        (historyLoop s e rest tops th c).1 ∧
      ∃ w, (historyLoop s e (.ratelimited ra :: rest) tops th c).2 =
        .request c :: .log w :: .sleep (ra.getD 30 : ℚ) :: .sleep 1 ::
          (historyLoop s e rest tops th c).2) := by
  refine ⟨fetch_user_map_rl_skip, ?_, ?_, ?_, ?_, ?_⟩
  · intro pts i t s v xs ra ys acc c
    exact fetch_thread_rl_skip pts i t s v xs ra ys acc c
  · intro xs ra ys oracle s e ts v
    rw [fetch_channel_structured_outcome, fetch_channel_structured_outcome,
      historyLoop_rl_skip]
  · intro ra rest m c b
    exact ⟨fetch_user_map_backoff _ _ _ _ _, ⟨_, rfl⟩⟩
  · intro pts i t s ra rest acc c
    exact ⟨rfl, ⟨_, rfl⟩⟩
  · intro s e ra rest tops th c
    exact ⟨rfl, ⟨_, rfl⟩⟩

/-- C4. The claim states that any non-rate-limit API error inside a fetch
loop only stops that loop, which then returns what it aggregated so far.
This is false for the channel-listing loop: `fetch_all_channels` has no
error handler, so the error propagates and the run crashes instead of
returning the (empty) aggregate. -/
theorem c4_counterexample :
    fetch_all_channels [ApiRes.apiError "boom"] ([] : List Nat) none =
      (.crashed "boom", [.request none]) ∧
    (FetchOutcome.crashed "boom" : FetchOutcome (List Nat)) ≠ .done [] := by
  exact ⟨by decide, by decide⟩

/-- C4 (amended). In the fetch loops that catch API errors — user listing,
thread replies, and the history loop of `fetch_channel_structured`
(channel listing has no handler and aborts the program) — a non-rate-limit
API error prints a console message and stops only that loop, which returns
what it aggregated so far; no retry is attempted (the remaining response
stream is never consumed), and `fetch_channel_structured` still proceeds
to return a normal result. -/
theorem c4_api_errors :
    (∀ (e : String) (rest : List (ApiRes Member)) (m : List (String × String))
        (c : Option String) (b : Nat),
      fetch_user_map (.apiError e :: rest) m c b =
        (.done m, [.request c, .log ("⚠️ users.list failed: " ++ e)])) ∧
    (∀ (pts : String) (i t : Nat) (s : ℚ) (e : String)
        (rest : List (ApiRes Message)) (acc : List Message) (c : Option String),
      fetch_thread pts i t s false (.apiError e :: rest) acc c =
        (.done acc,
          [.request c, .log ("⚠️ conversations.replies failed: " ++ e)])) ∧
    (∀ (s e : ℚ) (msg : String) (rest : List (ApiRes Message))
        (tops : List Message) (th : List (ℚ × List Message)) (c : Option String),
      historyLoop s e (.apiError msg :: rest) tops th c =
        (.done (tops, th),
          [.request c, .log ("⚠️ conversations.history failed: " ++ msg)])) ∧
    (∀ (msg : String) (rest : List (ApiRes Message))
        (oracle : ℚ → List (ApiRes Message)) (s e ts : ℚ) (v : Bool),
      (fetch_channel_structured (.apiError msg :: rest) oracle s e ts v).1 =
        .done ([], [])) := by
  refine ⟨fun e rest m c b => rfl, fun pts i t s e rest acc c => rfl,
    fun s e msg rest tops th c => rfl, ?_⟩
  intro msg rest oracle s e ts v
  rw [fetch_channel_structured_outcome]
  rfl

theorem upsert_fresh {κ ν : Type} [DecidableEq κ] (th : List (κ × ν)) (k : κ)
    (v : ν) (h : ∀ p ∈ th, p.1 ≠ k) : upsert th k v = th ++ [(k, v)] := by
  induction th with
  | nil => rfl
  | cons p rest ih =>
      have hp : p.1 ≠ k := h p (by simp)
      rcases p with ⟨k0, v0⟩
      simp only [upsert, if_neg hp, List.cons_append, List.cons.injEq, true_and]
      exact ih fun q hq => h q (by simp [hq])

theorem upsert_app_hit {κ ν : Type} [DecidableEq κ] (done : List (κ × ν))
    (k : κ) (v0 : ν) (tl : List (κ × ν)) (v : ν)
    (h : ∀ p ∈ done, p.1 ≠ k) :
    upsert (done ++ (k, v0) :: tl) k v = done ++ (k, v) :: tl := by
  induction done with
  | nil => simp [upsert]
  | cons p rest ih =>
      have hp : p.1 ≠ k := h p (by simp)
      rcases p with ⟨k0, w0⟩
      simp only [List.cons_append, upsert, if_neg hp, List.cons.injEq, true_and]
      exact ih fun q hq => h q (by simp [hq])

theorem upsert_keys_sub {κ ν : Type} [DecidableEq κ] (th : List (κ × ν))
    (k : κ) (v : ν) :
    ∀ q ∈ (upsert th k v).map (·.1), q ∈ th.map (·.1) ∨ q = k := by
  induction th with
  | nil => simp [upsert]
  | cons p rest ih =>
      rcases p with ⟨k0, v0⟩
      by_cases hk : k0 = k
      · subst hk
        simp only [upsert, if_pos rfl, List.map_cons]
        intro q hq
        rcases List.mem_cons.mp hq with hq | hq
        · right; exact hq
        · left; exact List.mem_cons.mpr (Or.inr hq)
      · simp only [upsert, if_neg hk, List.map_cons]
        intro q hq
        rcases List.mem_cons.mp hq with hq | hq
        · left; exact List.mem_cons.mpr (Or.inl hq)
        · rcases ih q hq with h2 | h2
          · left; exact List.mem_cons.mpr (Or.inr h2)
          · right; exact h2

theorem foldl_upsert_fresh (ms : List Message) :
    ∀ (th : List (ℚ × List Message)),
    (∀ p ∈ th, ∀ m ∈ ms, p.1 ≠ m.ts) → (ms.map (·.ts)).Nodup →
    ms.foldl (fun t m => upsert t m.ts ([] : List Message)) th =
      th ++ ms.map (fun m => (m.ts, [])) := by
  induction ms with
  | nil => simp
  | cons m rest ih =>
      intro th hdisj hnd
      simp only [List.foldl_cons]
      rw [upsert_fresh th m.ts [] fun p hp => hdisj p hp m (by simp)]
      simp only [List.map_cons, List.nodup_cons] at hnd
      rw [ih (th ++ [(m.ts, [])]) ?_ hnd.2]
      · simp
      · intro p hp m2 hm2
        rcases List.mem_append.mp hp with hp | hp
        · exact hdisj p hp m2 (by simp [hm2])
        · simp only [List.mem_singleton] at hp
          subst hp
          simp only []
          intro hEq
          exact hnd.1 (hEq ▸ List.mem_map_of_mem (·.ts) hm2)

theorem markerFold_nodup (s e : ℚ) (msgs : List Message)
    (hnd : ((msgs.filter fun m => keepMsg s e m && isThreadParent m).map
      (·.ts)).Nodup) :
    markerFold s e [] msgs =
      (msgs.filter fun m => keepMsg s e m && isThreadParent m).map
        (fun m => (m.ts, [])) := by
  unfold markerFold
  rw [foldl_upsert_fresh _ [] (by simp) hnd]
  simp

theorem markerFold_keys (s e : ℚ) (msgs : List Message)
    (th : List (ℚ × List Message)) :
    ∀ q ∈ (markerFold s e th msgs).map (·.1),
      q ∈ th.map (·.1) ∨
        ∃ m ∈ msgs, keepMsg s e m ∧ isThreadParent m ∧ m.ts = q := by
  unfold markerFold
  generalize hfs : msgs.filter (fun m => keepMsg s e m && isThreadParent m) = fs
  have hmem : ∀ m ∈ fs, m ∈ msgs ∧ keepMsg s e m ∧ isThreadParent m := by
    intro m hm
    rw [← hfs] at hm
    have := List.mem_filter.mp hm
    refine ⟨this.1, ?_, ?_⟩ <;> simp_all
  clear hfs
  induction fs generalizing th with
  | nil =>
      intro q hq
      simp only [List.foldl_nil] at hq
      exact Or.inl hq
  | cons f rest ih =>
      intro q hq
      simp only [List.foldl_cons] at hq
      have hf := hmem f (by simp)
      rcases ih (upsert th f.ts []) (fun m hm => hmem m (by simp [hm])) q hq with
        h2 | h2
      · rcases upsert_keys_sub th f.ts [] q h2 with h3 | h3
        · left; exact h3
        · right; exact ⟨f, hf.1, hf.2.1, hf.2.2, h3.symm⟩
      · right
        rcases h2 with ⟨m, hm, h3⟩
        exact ⟨m, hm, h3⟩

theorem fetch_thread_single (pts : String) (i t : Nat) (s : ℚ)
    (page : List Message) :
    fetch_thread pts i t s false [.ok page none] [] none =
      (.done (page.drop 1), [.request none]) := by
  simp [fetch_thread, cursorPresent]

theorem threadsFill_go (pageFor : ℚ → List Message) (ts_sleep : ℚ)
    (total : Nat) (tl : List (ℚ × List Message)) :
    ∀ (done : List (ℚ × List Message)) (idx : Nat),
    (∀ p ∈ done, ∀ p2 ∈ tl, p.1 ≠ p2.1) → (tl.map (·.1)).Nodup →
    (threadsFill (fun q => [.ok (pageFor q) none]) ts_sleep false total
        (tl.map (·.1)) idx (done ++ tl)).1 =
      some (done ++ tl.map fun p => (p.1, (pageFor p.1).drop 1)) := by
  induction tl with
  | nil =>
      intro done idx h1 h2
      simp [threadsFill]
  | cons p tl ih =>
      intro done idx hdisj hnd
      rcases p with ⟨q, v0⟩
      simp only [List.map_cons, threadsFill, fetch_thread_single]
      have hq : ∀ p ∈ done, p.1 ≠ q :=
        fun p hp => hdisj p hp (q, v0) (by simp)
      rw [upsert_app_hit done q v0 tl ((pageFor q).drop 1) hq]
      simp only [List.map_cons, List.nodup_cons] at hnd
      have hdisj2 : ∀ p ∈ done ++ [(q, (pageFor q).drop 1)], ∀ p2 ∈ tl,
          p.1 ≠ p2.1 := by
        intro p hp p2 hp2
        rcases List.mem_append.mp hp with hp | hp
        · exact hdisj p hp p2 (by simp [hp2])
        · simp only [List.mem_singleton] at hp
          subst hp
          intro hEq
          exact hnd.1 (by
            rw [show q = p2.1 from hEq]
            exact List.mem_map_of_mem (·.1) hp2)
      have := ih (done ++ [(q, (pageFor q).drop 1)]) (idx + 1) hdisj2 hnd.2
      rw [show done ++ (q, (pageFor q).drop 1) :: tl =
        (done ++ [(q, (pageFor q).drop 1)]) ++ tl by simp] at *
      rw [this]
      simp

/-- C5. For every surviving history message whose `thread_ts` equals its
own `ts`, `fetch_channel_structured` records a thread entry keyed by that
timestamp and attaches the replies `fetch_thread` returns for it (here:
the thread page served for that timestamp, minus its leading parent);
messages without such a marker get no thread entry — the thread map holds
exactly one entry per surviving thread parent. -/
theorem c5_thread_attach (s e ts : ℚ) (pre : List (List Message × String))
    (last : List Message) (rest : List (ApiRes Message))
    (pageFor : ℚ → List Message) (all markers : List Message)
    (hall : all = (pre.map (·.1)).flatten ++ last)
    (hmk : markers = all.filter fun m => keepMsg s e m && isThreadParent m)
    (hc : ∀ p ∈ pre, p.2 ≠ "")
    (hnd : (markers.map (·.ts)).Nodup) :
    (fetch_channel_structured (mkOkPages pre ++ .ok last none :: rest)
        (fun q => [.ok (pageFor q) none]) s e ts false).1 =
      .done (all.filter (keepMsg s e),
        markers.map fun m => (m.ts, (pageFor m.ts).drop 1)) := by
  subst hall
  subst hmk
  rw [fetch_channel_structured_outcome]
  have h := historyLoop_okRun s e pre last rest [] [] none hc
  have h1 : (historyLoop s e (mkOkPages pre ++ .ok last none :: rest)
      [] [] none).1 =
      .done ([] ++ ((pre.map (·.1)).flatten ++ last).filter (keepMsg s e),
        markerFold s e [] ((pre.map (·.1)).flatten ++ last)) := by
    rw [h]
  rw [h1, markerFold_nodup s e _ hnd]
  simp only [fcsOutcome, List.nil_append]
  have hkeys :
      ((((pre.map (·.1)).flatten ++ last).filter
          (fun m => keepMsg s e m && isThreadParent m)).map
        (fun m => (m.ts, ([] : List Message)))).map (·.1) =
      (((pre.map (·.1)).flatten ++ last).filter
          (fun m => keepMsg s e m && isThreadParent m)).map (·.ts) := by
    rw [List.map_map]
    rfl
  have hnd2 : (((((pre.map (·.1)).flatten ++ last).filter
      (fun m => keepMsg s e m && isThreadParent m)).map
        (fun m => (m.ts, ([] : List Message)))).map (·.1)).Nodup := by
    rw [hkeys]; exact hnd
  have hfill := threadsFill_go pageFor ts
    ((((pre.map (·.1)).flatten ++ last).filter
        (fun m => keepMsg s e m && isThreadParent m)).map
      (fun m => (m.ts, ([] : List Message)))).length
    ((((pre.map (·.1)).flatten ++ last).filter
        (fun m => keepMsg s e m && isThreadParent m)).map
      (fun m => (m.ts, ([] : List Message))))
    [] 1 (by simp) hnd2
  simp only [List.nil_append] at hfill
  rw [hfill]
  simp only [List.map_map]
  rfl

/-- C5 witness: a single history page with one thread parent (entry
recorded, replies attached minus the leading parent) and one plain
message (no entry). -/
theorem c5_thread_attach_witness :
    (fetch_channel_structured
        [.ok [⟨1, none, some "root", none, some 1⟩,
              ⟨2, none, some "plain", none, none⟩] none]
        (fun q => [.ok [⟨q, none, some "root", none, some q⟩,
          ⟨5, none, some "reply", none, some q⟩] none])
        0 10 0 false).1 =
      .done ([⟨1, none, some "root", none, some 1⟩,
              ⟨2, none, some "plain", none, none⟩],
        [(1, [⟨5, none, some "reply", none, some 1⟩])]) := by
  have h := c5_thread_attach 0 10 0 []
    [⟨1, none, some "root", none, some 1⟩, ⟨2, none, some "plain", none, none⟩]
    []
    (fun q => [⟨q, none, some "root", none, some q⟩,
      ⟨5, none, some "reply", none, some q⟩])
    _ _ rfl rfl (by simp) (by decide)
  simp only [mkOkPages, List.map_nil, List.nil_append] at h
  rw [h]
  decide

/-- C6. Among history messages carrying a `subtype`, exactly those with
subtype `thread_broadcast` survive the filter (subject to the date-range
check); any other subtype is silently dropped — no output line and no
thread entry (every thread key comes from a surviving message) — while
messages without a `subtype` are never dropped by this filter. -/
theorem c6_subtype_filter (s e : ℚ) (pre : List (List Message × String))
    (last : List Message) (rest : List (ApiRes Message)) (all : List Message)
    (hall : all = (pre.map (·.1)).flatten ++ last)
    (hc : ∀ p ∈ pre, p.2 ≠ "") :
    (historyLoop s e (mkOkPages pre ++ .ok last none :: rest) [] [] none).1 =
      .done (all.filter (keepMsg s e), markerFold s e [] all) ∧
    (∀ m ∈ all, ∀ sub, m.subtype = some sub → sub ≠ "thread_broadcast" →
      m ∉ all.filter (keepMsg s e)) ∧
    (∀ m ∈ all, m.subtype = some "thread_broadcast" → s ≤ m.ts → m.ts ≤ e →
      m ∈ all.filter (keepMsg s e)) ∧
    (∀ m ∈ all, m.subtype = none → s ≤ m.ts → m.ts ≤ e →
      m ∈ all.filter (keepMsg s e)) ∧
    (∀ q ∈ (markerFold s e [] all).map (·.1),
      ∃ m ∈ all, keepMsg s e m ∧ isThreadParent m ∧ m.ts = q) := by
  subst hall
  refine ⟨?_, ?_, ?_, ?_, ?_⟩
  · rw [historyLoop_okRun s e pre last rest [] [] none hc]
    simp
  · intro m hm sub hsub hne hmem
    have hk := (List.mem_filter.mp hmem).2
    simp [keepMsg, subtypeDrop, hsub, hne] at hk
  · intro m hm hsub h1 h2
    exact List.mem_filter.mpr ⟨hm, by simp [keepMsg, subtypeDrop, hsub, h1, h2]⟩
  · intro m hm hsub h1 h2
    exact List.mem_filter.mpr ⟨hm, by simp [keepMsg, subtypeDrop, hsub, h1, h2]⟩
  · intro q hq
    rcases markerFold_keys s e ((pre.map (·.1)).flatten ++ last) [] q hq with
      h | h
    · simp at h
    · exact h

/-- C6 witness: a channel-join notice is dropped while a thread broadcast
and a plain message in range are kept. -/
theorem c6_subtype_filter_witness :
    (⟨3, none, some "x joined", some "channel_join", none⟩ : Message) ∉
      ([⟨4, none, some "bc", some "thread_broadcast", none⟩,
        ⟨3, none, some "x joined", some "channel_join", none⟩,
        ⟨5, none, some "hi", none, none⟩] : List Message).filter
        (keepMsg 0 10) ∧
    (⟨4, none, some "bc", some "thread_broadcast", none⟩ : Message) ∈
      ([⟨4, none, some "bc", some "thread_broadcast", none⟩,
        ⟨3, none, some "x joined", some "channel_join", none⟩,
        ⟨5, none, some "hi", none, none⟩] : List Message).filter
        (keepMsg 0 10) ∧
    (⟨5, none, some "hi", none, none⟩ : Message) ∈
      ([⟨4, none, some "bc", some "thread_broadcast", none⟩,
        ⟨3, none, some "x joined", some "channel_join", none⟩,
        ⟨5, none, some "hi", none, none⟩] : List Message).filter
        (keepMsg 0 10) := by
  have h := c6_subtype_filter 0 10 []
    [⟨4, none, some "bc", some "thread_broadcast", none⟩,
      ⟨3, none, some "x joined", some "channel_join", none⟩,
      ⟨5, none, some "hi", none, none⟩] []
    [⟨4, none, some "bc", some "thread_broadcast", none⟩,
      ⟨3, none, some "x joined", some "channel_join", none⟩,
      ⟨5, none, some "hi", none, none⟩] rfl (by simp)
  exact ⟨h.2.1 _ (by decide) "channel_join" rfl (by decide),
    h.2.2.1 _ (by decide) rfl (by decide) (by decide),
    h.2.2.2.1 _ (by decide) rfl (by decide) (by decide)⟩

theorem insertByTs_mem (m : Message) (l : List Message) :
    ∀ y ∈ insertByTs m l, y = m ∨ y ∈ l := by
  induction l with
  | nil => simp [insertByTs]
  | cons x xs ih =>
      intro y hy
      by_cases hc : m.ts ≤ x.ts
      · simp only [insertByTs, if_pos hc] at hy
        rcases List.mem_cons.mp hy with h | h
        · left; exact h
        · right; exact h
      · simp only [insertByTs, if_neg hc] at hy
        rcases List.mem_cons.mp hy with h | h
        · right; simp [h]
        · rcases ih y h with h2 | h2
          · left; exact h2
          · right; simp [h2]

theorem insertByTs_pairwise (m : Message) (l : List Message)
    (hl : l.Pairwise fun a b => a.ts ≤ b.ts) :
    (insertByTs m l).Pairwise fun a b => a.ts ≤ b.ts := by
  induction l with
  | nil => simp [insertByTs]
  | cons x xs ih =>
      rw [List.pairwise_cons] at hl
      by_cases hc : m.ts ≤ x.ts
      · simp only [insertByTs, if_pos hc]
        rw [List.pairwise_cons]
        refine ⟨?_, List.pairwise_cons.mpr hl⟩
        intro b hb
        rcases List.mem_cons.mp hb with h | h
        · exact h ▸ hc
        · exact le_trans hc (hl.1 b h)
      · simp only [insertByTs, if_neg hc]
        rw [List.pairwise_cons]
        refine ⟨?_, ih hl.2⟩
        intro b hb
        rcases insertByTs_mem m xs b hb with h | h
        · rw [h]; exact le_of_not_le hc
        · exact hl.1 b h

theorem sortByTs_pairwise (l : List Message) :
    (sortByTs l).Pairwise (fun a b => a.ts ≤ b.ts) := by
  induction l with
  | nil => simp [sortByTs]
  | cons m rest ih =>
      exact insertByTs_pairwise m (sortByTs rest) ih

theorem filter_tops (threads : List (ℚ × List Message)) (l : List Message) :
    (l.flatMap (blockOf threads)).filter (fun e => !e.isReply) =
      l.map fun m => ⟨false, m⟩ := by
  induction l with
  | nil => simp
  | cons m rest ih =>
      simp only [List.flatMap_cons, List.filter_append, ih, blockOf]
      by_cases hm : isThreadParent m
      · simp [hm, List.filter_map, Function.comp]
      · simp [hm]

theorem flatMap_head_false (threads : List (ℚ × List Message))
    (l : List Message) :
    ∀ b ∈ (l.flatMap (blockOf threads)).head?, b.isReply = false := by
  cases l with
  | nil => simp
  | cons m rest =>
      intro b hb
      simp only [List.flatMap_cons, blockOf, List.cons_append,
        List.head?_cons, Option.mem_def, Option.some.injEq] at hb
      rw [← hb]

theorem chain'_blockOf (threads : List (ℚ × List Message)) (m : Message) :
    List.Chain'
      (fun a b : Entry => a.isReply = true → b.isReply = true →
        a.msg.ts ≤ b.msg.ts)
      (blockOf threads m) := by
  unfold blockOf
  rw [List.chain'_cons']
  constructor
  · intro b hb hfalse
    simp at hfalse
  · by_cases hm : isThreadParent m
    · simp only [hm, if_true]
      rw [List.chain'_map]
      have := (sortByTs_pairwise ((dget threads m.ts).getD [])).chain'
      exact this.imp fun a b hab _ _ => hab
    · simp [hm]

/-- C3. The claim states that the whole sequence of message lines in an
output file is non-decreasing in timestamp. It is false: a thread reply is
written directly under its parent even when its timestamp exceeds that of
a later top-level message, so the file sequence 1, 5, 2 below is not
non-decreasing. -/
theorem c3_counterexample :
    ¬ List.Chain' (fun a b : Entry => a.msg.ts ≤ b.msg.ts)
      (writeEntries
        [⟨1, none, some "root", none, some 1⟩,
          ⟨2, none, some "later", none, none⟩]
        [(1, [⟨5, none, some "late reply", none, some 1⟩])]) := by
  intro h
  have he : writeEntries
      [⟨1, none, some "root", none, some 1⟩,
        ⟨2, none, some "later", none, none⟩]
      [(1, [⟨5, none, some "late reply", none, some 1⟩])] =
      [⟨false, ⟨1, none, some "root", none, some 1⟩⟩,
        ⟨true, ⟨5, none, some "late reply", none, some 1⟩⟩,
        ⟨false, ⟨2, none, some "later", none, none⟩⟩] := by decide
  rw [he] at h
  rcases List.chain'_cons.mp h with ⟨-, h2⟩
  rcases List.chain'_cons.mp h2 with ⟨h3, -⟩
  norm_num at h3

/-- C3 (amended). In every output file written by `write_channel`, the
top-level message lines are non-decreasing in timestamp among themselves,
and any two consecutive reply lines (necessarily of the same thread) are
non-decreasing in timestamp; a reply line may however carry a timestamp
greater than that of a later top-level line. -/
theorem c3_order (messages : List Message) (threads : List (ℚ × List Message)) :
    ((writeEntries messages threads).filter (fun e => !e.isReply)).Pairwise
      (fun a b => a.msg.ts ≤ b.msg.ts) ∧
    List.Chain'
      (fun a b : Entry => a.isReply = true → b.isReply = true →
        a.msg.ts ≤ b.msg.ts)
      (writeEntries messages threads) := by
  constructor
  · unfold writeEntries
    rw [filter_tops]
    rw [List.pairwise_map]
    exact sortByTs_pairwise messages
  · unfold writeEntries
    generalize sortByTs messages = l
    induction l with
    | nil => simp
    | cons m rest ih =>
        simp only [List.flatMap_cons]
        rw [List.chain'_append]
        refine ⟨chain'_blockOf threads m, ih, ?_⟩
        intro a ha b hb
        intro _ hbr
        rw [flatMap_head_false threads rest b hb] at hbr
        exact absurd hbr (by simp)

theorem matchUserRef_not_lt (c : Char) (cs : List Char) (h : c ≠ '<') :
    matchUserRef (c :: cs) = none := by
  rw [matchUserRef.eq_def]
  split
  · rename_i c2 rest heq
    injection heq with h1 h2
    exact absurd h1 h
  · rfl

theorem matchUserRef_lt_not_at (z : List Char) (h : z.head? ≠ some '@') :
    matchUserRef ('<' :: z) = none := by
  rw [matchUserRef.eq_def]
  split
  · rename_i c2 rest heq
    injection heq with h1 h2
    exact absurd (by rw [h2]; rfl) h
  · rfl

theorem matchPlainRef_not_lt (c : Char) (cs : List Char) (h : c ≠ '<') :
    matchPlainRef (c :: cs) = none := by
  rw [matchPlainRef.eq_def]
  split
  · rename_i rest heq
    injection heq with h1 h2
    exact absurd h1 h
  · rfl

theorem matchPlainRef_lt_not_u (z : List Char) (h : z.head? ≠ some 'U') :
    matchPlainRef ('<' :: z) = none := by
  rw [matchPlainRef.eq_def]
  split
  · rename_i rest heq
    injection heq with h1 h2
    exact absurd (by rw [h2]; rfl) h
  · rfl

theorem matchGroupRef_not_lt (c : Char) (cs : List Char) (h : c ≠ '<') :
    matchGroupRef (c :: cs) = none := by
  rw [matchGroupRef.eq_def]
  split
  · rename_i rest heq
    injection heq with h1 h2
    exact absurd h1 h
  · rfl

theorem matchGroupRef_lt_not_bang (z : List Char) (h : z.head? ≠ some '!') :
    matchGroupRef ('<' :: z) = none := by
  rw [matchGroupRef.eq_def]
  split
  · rename_i rest heq
    injection heq with h1 h2
    exact absurd (by rw [h2]; rfl) h
  · rfl

theorem takeRun_exact (p : Char → Bool) (run : List Char) (y : Char)
    (r : List Char) (hrun : ∀ x ∈ run, p x = true) (hy : p y = false) :
    takeRun p (run ++ y :: r) = (run, y :: r) := by
  induction run with
  | nil => simp [takeRun, hy]
  | cons a as ih =>
      have ha : p a = true := hrun a (by simp)
      simp [takeRun, ha, ih fun x hx => hrun x (by simp [hx])]

theorem matchUserRef_tok (c : Char) (rest : List Char) (b : List Char)
    (hc : c = 'U' ∨ c = 'W') (hne : rest ≠ [])
    (hrun : ∀ x ∈ rest, isRunChar x = true) :
    matchUserRef ('<' :: '@' :: c :: (rest ++ '>' :: b)) = some (c :: rest, b) := by
  rw [matchUserRef.eq_def]
  simp only [if_pos hc]
  rw [takeRun_exact isRunChar rest '>' b hrun (by decide)]
  match rest, hne with
  | x :: xs, _ => rfl

theorem matchPlainRef_tok (rest : List Char) (b : List Char) (hne : rest ≠ [])
    (hrun : ∀ x ∈ rest, isRunChar x = true) :
    matchPlainRef ('<' :: 'U' :: (rest ++ '>' :: b)) = some ('U' :: rest, b) := by
  show (match takeRun isRunChar (rest ++ '>' :: b) with
    | ([], _) => none
    | (run, '>' :: after) => some ('U' :: run, after)
    | _ => none) = some ('U' :: rest, b)
  rw [takeRun_exact isRunChar rest '>' b hrun (by decide)]
  match rest, hne with
  | x :: xs, _ => rfl

theorem matchGroupRef_tok (run : List Char) (b : List Char) (hne : run ≠ [])
    (hrun : ∀ x ∈ run, isRunChar x = true) :
    matchGroupRef ('<' :: '!' ::
      ('s' :: 'u' :: 'b' :: 't' :: 'e' :: 'a' :: 'm' :: '^' :: (run ++ '>' :: b))) =
      some (run, b) := by
  show (match takeRun isRunChar (run ++ '>' :: b) with
    | ([], _) => none
    | (run, '>' :: after) => some (run, after)
    | _ => none) = some (run, b)
  rw [takeRun_exact isRunChar run '>' b hrun (by decide)]
  match run, hne with
  | x :: xs, _ => rfl

theorem matchUserRef_len {l : List Char} {idc after : List Char}
    (h : matchUserRef l = some (idc, after)) : after.length < l.length := by
  rw [matchUserRef.eq_def] at h
  split at h
  · rename_i c rest
    split at h
    · have hlen := takeRun_len isRunChar rest
      split at h
      · exact absurd h (by simp)
      · rename_i run after2 heq
        simp only [Option.some.injEq, Prod.mk.injEq] at h
        obtain ⟨-, rfl⟩ := h
        rw [heq] at hlen
        simp only [List.length_cons] at hlen ⊢
        omega
      · exact absurd h (by simp)
    · exact absurd h (by simp)
  · exact absurd h (by simp)

theorem matchPlainRef_len {l : List Char} {idc after : List Char}
    (h : matchPlainRef l = some (idc, after)) : after.length < l.length := by
  rw [matchPlainRef.eq_def] at h
  split at h
  · rename_i rest
    have hlen := takeRun_len isRunChar rest
    split at h
    · exact absurd h (by simp)
    · rename_i run after2 heq
      simp only [Option.some.injEq, Prod.mk.injEq] at h
      obtain ⟨-, rfl⟩ := h
      rw [heq] at hlen
      simp only [List.length_cons] at hlen ⊢
      omega
    · exact absurd h (by simp)
  · exact absurd h (by simp)

theorem matchGroupRef_len {l : List Char} {idc after : List Char}
    (h : matchGroupRef l = some (idc, after)) : after.length < l.length := by
  rw [matchGroupRef.eq_def] at h
  split at h
  · rename_i rest
    split at h
    · have hlen := takeRun_len isRunChar (rest.drop 8)
      have hdrop : (rest.drop 8).length ≤ rest.length := by
        simp [List.length_drop]
      split at h
      · exact absurd h (by simp)
      · rename_i run after2 heq
        simp only [Option.some.injEq, Prod.mk.injEq] at h
        obtain ⟨-, rfl⟩ := h
        rw [heq] at hlen
        simp only [List.length_cons] at hlen ⊢
        omega
      · exact absurd h (by simp)
    · exact absurd h (by simp)
  · exact absurd h (by simp)

theorem subUserF_fuel (umap : List (String × String)) :
    ∀ (f : Nat) (l : List Char), l.length ≤ f →
      subUserF umap f l = subUser umap l := by
  intro f
  induction f using Nat.strong_induction_on with
  | _ f ih =>
      intro l hl
      cases l with
      | nil => cases f <;> rfl
      | cons c cs =>
          cases f with
          | zero => simp at hl
          | succ f2 =>
              have hcs : cs.length ≤ f2 := by simpa using hl
              cases h : matchUserRef (c :: cs) with
              | none =>
                  simp only [subUserF, h, subUser, List.length_cons]
                  rw [ih f2 (Nat.lt_succ_self f2) cs hcs]
                  rfl
              | some pr =>
                  rcases pr with ⟨idc, after⟩
                  have hlen : after.length < cs.length + 1 := matchUserRef_len h
                  simp only [subUserF, h, subUser, List.length_cons]
                  rw [ih f2 (Nat.lt_succ_self f2) after (by omega),
                    ih cs.length (by omega) after (by omega)]

theorem subPlainF_fuel (umap : List (String × String)) :
    ∀ (f : Nat) (l : List Char), l.length ≤ f →
      subPlainF umap f l = subPlain umap l := by
  intro f
  induction f using Nat.strong_induction_on with
  | _ f ih =>
      intro l hl
      cases l with
      | nil => cases f <;> rfl
      | cons c cs =>
          cases f with
          | zero => simp at hl
          | succ f2 =>
              have hcs : cs.length ≤ f2 := by simpa using hl
              cases h : matchPlainRef (c :: cs) with
              | none =>
                  simp only [subPlainF, h, subPlain, List.length_cons]
                  rw [ih f2 (Nat.lt_succ_self f2) cs hcs]
                  rfl
              | some pr =>
                  rcases pr with ⟨idc, after⟩
                  have hlen : after.length < cs.length + 1 := matchPlainRef_len h
                  simp only [subPlainF, h, subPlain, List.length_cons]
                  rw [ih f2 (Nat.lt_succ_self f2) after (by omega),
                    ih cs.length (by omega) after (by omega)]

theorem subGroupF_fuel (gmap : List (String × String)) :
    ∀ (f : Nat) (l : List Char), l.length ≤ f →
      subGroupF gmap f l = subGroup gmap l := by
  intro f
  induction f using Nat.strong_induction_on with
  | _ f ih =>
      intro l hl
      cases l with
      | nil => cases f <;> rfl
      | cons c cs =>
          cases f with
          | zero => simp at hl
          | succ f2 =>
              have hcs : cs.length ≤ f2 := by simpa using hl
              cases h : matchGroupRef (c :: cs) with
              | none =>
                  simp only [subGroupF, h, subGroup, List.length_cons]
                  rw [ih f2 (Nat.lt_succ_self f2) cs hcs]
                  rfl
              | some pr =>
                  rcases pr with ⟨idc, after⟩
                  have hlen : after.length < cs.length + 1 := matchGroupRef_len h
                  simp only [subGroupF, h, subGroup, List.length_cons]
                  rw [ih f2 (Nat.lt_succ_self f2) after (by omega),
                    ih cs.length (by omega) after (by omega)]

theorem subUser_skip (umap : List (String × String)) {c : Char} {cs : List Char}
    (h : matchUserRef (c :: cs) = none) :
    subUser umap (c :: cs) = c :: subUser umap cs := by
  simp only [subUser, List.length_cons, subUserF, h]

theorem subPlain_skip (umap : List (String × String)) {c : Char} {cs : List Char}
    (h : matchPlainRef (c :: cs) = none) :
    subPlain umap (c :: cs) = c :: subPlain umap cs := by
  simp only [subPlain, List.length_cons, subPlainF, h]

theorem subGroup_skip (gmap : List (String × String)) {c : Char} {cs : List Char}
    (h : matchGroupRef (c :: cs) = none) :
    subGroup gmap (c :: cs) = c :: subGroup gmap cs := by
  simp only [subGroup, List.length_cons, subGroupF, h]

theorem subUser_match (umap : List (String × String)) {l idc after : List Char}
    (h : matchUserRef l = some (idc, after)) :
    subUser umap l =
      '@' :: ((dget umap (String.mk idc)).getD (String.mk idc)).data ++
        subUser umap after := by
  cases l with
  | nil => exact absurd h (by simp [matchUserRef])
  | cons c cs =>
      have hlen : after.length < cs.length + 1 := matchUserRef_len h
      simp only [subUser, List.length_cons, subUserF, h]
      rw [subUserF_fuel umap cs.length after (by omega)]
      rfl

theorem subPlain_match (umap : List (String × String)) {l idc after : List Char}
    (h : matchPlainRef l = some (idc, after)) :
    subPlain umap l =
      '<' :: ((dget umap (String.mk idc)).getD (String.mk idc)).data ++
        '>' :: subPlain umap after := by
  cases l with
  | nil => exact absurd h (by simp [matchPlainRef])
  | cons c cs =>
      have hlen : after.length < cs.length + 1 := matchPlainRef_len h
      simp only [subPlain, List.length_cons, subPlainF, h]
      rw [subPlainF_fuel umap cs.length after (by omega)]
      rfl

theorem subGroup_match (gmap : List (String × String)) {l idc after : List Char}
    (h : matchGroupRef l = some (idc, after)) :
    subGroup gmap l =
      '@' :: ((dget gmap (String.mk idc)).getD (String.mk idc)).data ++
        subGroup gmap after := by
  cases l with
  | nil => exact absurd h (by simp [matchGroupRef])
  | cons c cs =>
      have hlen : after.length < cs.length + 1 := matchGroupRef_len h
      simp only [subGroup, List.length_cons, subGroupF, h]
      rw [subGroupF_fuel gmap cs.length after (by omega)]
      rfl

theorem subUser_lt_free (umap : List (String × String)) (x r : List Char)
    (hx : '<' ∉ x) : subUser umap (x ++ r) = x ++ subUser umap r := by
  induction x with
  | nil => simp
  | cons c cs ih =>
      have hc : c ≠ '<' := fun hEq => hx (by simp [hEq])
      have hcs : '<' ∉ cs := fun h2 => hx (by simp [h2])
      rw [List.cons_append, subUser_skip umap (matchUserRef_not_lt c _ hc),
        ih hcs]
      simp

theorem subPlain_lt_free (umap : List (String × String)) (x r : List Char)
    (hx : '<' ∉ x) : subPlain umap (x ++ r) = x ++ subPlain umap r := by
  induction x with
  | nil => simp
  | cons c cs ih =>
      have hc : c ≠ '<' := fun hEq => hx (by simp [hEq])
      have hcs : '<' ∉ cs := fun h2 => hx (by simp [h2])
      rw [List.cons_append, subPlain_skip umap (matchPlainRef_not_lt c _ hc),
        ih hcs]
      simp

theorem subGroup_lt_free (gmap : List (String × String)) (x r : List Char)
    (hx : '<' ∉ x) : subGroup gmap (x ++ r) = x ++ subGroup gmap r := by
  induction x with
  | nil => simp
  | cons c cs ih =>
      have hc : c ≠ '<' := fun hEq => hx (by simp [hEq])
      have hcs : '<' ∉ cs := fun h2 => hx (by simp [h2])
      rw [List.cons_append, subGroup_skip gmap (matchGroupRef_not_lt c _ hc),
        ih hcs]
      simp

theorem resolve_user_tok (umap gmap : List (String × String)) (a b : String)
    (c : Char) (rest : List Char) (hc : c = 'U' ∨ c = 'W') (hne : rest ≠ [])
    (hrun : ∀ x ∈ rest, isRunChar x = true) (ha : '<' ∉ a.data)
    (hname : '<' ∉ ((dget umap (String.mk (c :: rest))).getD
      (String.mk (c :: rest))).data) :
    resolve_text (a ++ "<@" ++ String.mk (c :: rest) ++ ">" ++ b) umap gmap =
      a ++ "@" ++ (dget umap (String.mk (c :: rest))).getD
        (String.mk (c :: rest)) ++ resolve_text b umap gmap := by
  apply String.ext
  have hdata : (a ++ "<@" ++ String.mk (c :: rest) ++ ">" ++ b).data =
      a.data ++ ('<' :: '@' :: c :: (rest ++ '>' :: b.data)) := by
    simp [String.data_append]
  show subGroup gmap (subPlain umap (subUser umap
      (a ++ "<@" ++ String.mk (c :: rest) ++ ">" ++ b).data)) = _
  rw [hdata, subUser_lt_free umap a.data _ ha,
    subUser_match umap (matchUserRef_tok c rest b.data hc hne hrun)]
  rw [show a.data ++ ('@' :: ((dget umap (String.mk (c :: rest))).getD
      (String.mk (c :: rest))).data ++ subUser umap b.data) =
    (a.data ++ '@' :: ((dget umap (String.mk (c :: rest))).getD
      (String.mk (c :: rest))).data) ++ subUser umap b.data by simp]
  have hx : '<' ∉ (a.data ++ '@' :: ((dget umap (String.mk (c :: rest))).getD
      (String.mk (c :: rest))).data) := by
    intro hm
    rcases List.mem_append.mp hm with hm | hm
    · exact ha hm
    · rcases List.mem_cons.mp hm with hm | hm
      · exact absurd hm (by decide)
      · exact hname hm
  rw [subPlain_lt_free umap _ _ hx, subGroup_lt_free gmap _ _ hx]
  simp [String.data_append, resolve_text]

theorem resolve_plain_tok (umap gmap : List (String × String)) (a b : String)
    (rest : List Char) (hne : rest ≠ [])
    (hrun : ∀ x ∈ rest, isRunChar x = true) (ha : '<' ∉ a.data)
    (hname : '<' ∉ ((dget umap (String.mk ('U' :: rest))).getD
      (String.mk ('U' :: rest))).data)
    (hbang : '!' ∉ ((dget umap (String.mk ('U' :: rest))).getD
      (String.mk ('U' :: rest))).data) :
    resolve_text (a ++ "<" ++ String.mk ('U' :: rest) ++ ">" ++ b) umap gmap =
      a ++ "<" ++ (dget umap (String.mk ('U' :: rest))).getD
        (String.mk ('U' :: rest)) ++ ">" ++ resolve_text b umap gmap := by
  apply String.ext
  have hrow : ∀ x ∈ rest, x ≠ '<' := by
    intro x hx hEq
    have h2 := hrun x hx
    rw [hEq] at h2
    exact absurd h2 (by decide)
  have hdata : (a ++ "<" ++ String.mk ('U' :: rest) ++ ">" ++ b).data =
      a.data ++ ('<' :: ('U' :: (rest ++ '>' :: b.data))) := by
    simp [String.data_append]
  show subGroup gmap (subPlain umap (subUser umap
      (a ++ "<" ++ String.mk ('U' :: rest) ++ ">" ++ b).data)) = _
  rw [hdata, subUser_lt_free umap a.data _ ha,
    subUser_skip umap (matchUserRef_lt_not_at ('U' :: (rest ++ '>' :: b.data))
      (by simp))]
  rw [show ('U' :: (rest ++ '>' :: b.data)) =
      (('U' :: rest) ++ ['>']) ++ b.data by simp]
  have hxu : '<' ∉ (('U' :: rest) ++ ['>']) := by
    intro hm
    rcases List.mem_append.mp hm with hm | hm
    · rcases List.mem_cons.mp hm with hm | hm
      · exact absurd hm (by decide)
      · exact hrow _ hm rfl
    · exact absurd (List.mem_singleton.mp hm) (by decide)
  rw [subUser_lt_free umap (('U' :: rest) ++ ['>']) b.data hxu]
  rw [show a.data ++ '<' :: ((('U' :: rest) ++ ['>']) ++ subUser umap b.data) =
      a.data ++ ('<' :: 'U' :: (rest ++ '>' :: subUser umap b.data)) by simp]
  rw [subPlain_lt_free umap a.data _ ha,
    subPlain_match umap (matchPlainRef_tok rest (subUser umap b.data) hne hrun)]
  set nmd := ((dget umap (String.mk ('U' :: rest))).getD
    (String.mk ('U' :: rest))).data with hN
  have hz : (nmd ++ '>' :: subPlain umap (subUser umap b.data)).head? ≠
      some '!' := by
    cases hcase : nmd with
    | nil => simp
    | cons x xs =>
        simp only [List.cons_append, List.head?_cons, ne_eq,
          Option.some.injEq]
        intro hEq
        exact hbang (by rw [hcase, hEq]; simp)
  rw [show a.data ++ ('<' :: nmd ++ '>' :: subPlain umap (subUser umap b.data)) =
      a.data ++ ('<' :: (nmd ++ '>' :: subPlain umap (subUser umap b.data)))
      by simp]
  rw [subGroup_lt_free gmap a.data _ ha,
    subGroup_skip gmap (matchGroupRef_lt_not_bang _ hz)]
  rw [show nmd ++ '>' :: subPlain umap (subUser umap b.data) =
      (nmd ++ ['>']) ++ subPlain umap (subUser umap b.data) by simp]
  have hxn : '<' ∉ (nmd ++ ['>']) := by
    intro hm
    rcases List.mem_append.mp hm with hm | hm
    · exact hname hm
    · exact absurd (List.mem_singleton.mp hm) (by decide)
  rw [subGroup_lt_free gmap (nmd ++ ['>']) _ hxn]
  simp [String.data_append, resolve_text, hN]

theorem resolve_group_tok (umap gmap : List (String × String)) (a b : String)
    (run : List Char) (hne : run ≠ [])
    (hrun : ∀ x ∈ run, isRunChar x = true) (ha : '<' ∉ a.data) :
    resolve_text (a ++ "<!subteam^" ++ String.mk run ++ ">" ++ b) umap gmap =
      a ++ "@" ++ (dget gmap (String.mk run)).getD (String.mk run) ++
        resolve_text b umap gmap := by
  apply String.ext
  have hrow : ∀ x ∈ run, x ≠ '<' := by
    intro x hx hEq
    have h2 := hrun x hx
    rw [hEq] at h2
    exact absurd h2 (by decide)
  have hdata : (a ++ "<!subteam^" ++ String.mk run ++ ">" ++ b).data =
      a.data ++ ('<' :: ('!' :: 's' :: 'u' :: 'b' :: 't' :: 'e' :: 'a' :: 'm' ::
        '^' :: (run ++ '>' :: b.data))) := by
    simp [String.data_append]
  have hxint : '<' ∉ ('!' :: 's' :: 'u' :: 'b' :: 't' :: 'e' :: 'a' :: 'm' ::
      '^' :: (run ++ ['>'])) := by
    intro hm
    simp only [List.mem_cons] at hm
    rcases hm with h | h | h | h | h | h | h | h | h | h
    iterate 9 exact absurd h (by decide)
    rcases List.mem_append.mp h with h | h
    · exact hrow _ h rfl
    · exact absurd (List.mem_singleton.mp h) (by decide)
  show subGroup gmap (subPlain umap (subUser umap
      (a ++ "<!subteam^" ++ String.mk run ++ ">" ++ b).data)) = _
  rw [hdata, subUser_lt_free umap a.data _ ha,
    subUser_skip umap (matchUserRef_lt_not_at _ (by simp))]
  rw [show ('!' :: 's' :: 'u' :: 'b' :: 't' :: 'e' :: 'a' :: 'm' ::
      '^' :: (run ++ '>' :: b.data)) =
      ('!' :: 's' :: 'u' :: 'b' :: 't' :: 'e' :: 'a' :: 'm' ::
        '^' :: (run ++ ['>'])) ++ b.data by simp]
  rw [subUser_lt_free umap _ b.data hxint]
  rw [show a.data ++ '<' :: (('!' :: 's' :: 'u' :: 'b' :: 't' :: 'e' :: 'a' ::
      'm' :: '^' :: (run ++ ['>'])) ++ subUser umap b.data) =
      a.data ++ ('<' :: ('!' :: 's' :: 'u' :: 'b' :: 't' :: 'e' :: 'a' :: 'm' ::
        '^' :: (run ++ ['>'])) ++ subUser umap b.data) by simp]
  rw [show ('<' :: ('!' :: 's' :: 'u' :: 'b' :: 't' :: 'e' :: 'a' :: 'm' ::
      '^' :: (run ++ ['>'])) ++ subUser umap b.data) =
      ('<' :: ('!' :: 's' :: 'u' :: 'b' :: 't' :: 'e' :: 'a' :: 'm' ::
        '^' :: (run ++ ('>' :: subUser umap b.data)))) by simp]
  rw [subPlain_lt_free umap a.data _ ha,
    subPlain_skip umap (matchPlainRef_lt_not_u _ (by simp))]
  rw [show ('!' :: 's' :: 'u' :: 'b' :: 't' :: 'e' :: 'a' :: 'm' ::
      '^' :: (run ++ '>' :: subUser umap b.data)) =
      ('!' :: 's' :: 'u' :: 'b' :: 't' :: 'e' :: 'a' :: 'm' ::
        '^' :: (run ++ ['>'])) ++ subUser umap b.data by simp]
  rw [subPlain_lt_free umap _ _ hxint]
  rw [show a.data ++ '<' :: (('!' :: 's' :: 'u' :: 'b' :: 't' :: 'e' :: 'a' ::
      'm' :: '^' :: (run ++ ['>'])) ++ subPlain umap (subUser umap b.data)) =
      a.data ++ ('<' :: '!' :: ('s' :: 'u' :: 'b' :: 't' :: 'e' :: 'a' :: 'm' ::
        '^' :: (run ++ '>' :: subPlain umap (subUser umap b.data)))) by simp]
  rw [subGroup_lt_free gmap a.data _ ha,
    subGroup_match gmap (matchGroupRef_tok run
      (subPlain umap (subUser umap b.data)) hne hrun)]
  simp [String.data_append, resolve_text]

theorem subUser_id_of_no_match (umap : List (String × String))
    (l : List Char) (h : hasMatch matchUserRef l = false) :
    subUser umap l = l := by
  induction l with
  | nil => rfl
  | cons c cs ih =>
      simp only [hasMatch, Bool.or_eq_false_iff] at h
      have hnone : matchUserRef (c :: cs) = none := by
        cases hm : matchUserRef (c :: cs) with
        | none => rfl
        | some v => rw [hm] at h; simp at h
      rw [subUser_skip umap hnone, ih h.2]

theorem subPlain_id_of_no_match (umap : List (String × String))
    (l : List Char) (h : hasMatch matchPlainRef l = false) :
    subPlain umap l = l := by
  induction l with
  | nil => rfl
  | cons c cs ih =>
      simp only [hasMatch, Bool.or_eq_false_iff] at h
      have hnone : matchPlainRef (c :: cs) = none := by
        cases hm : matchPlainRef (c :: cs) with
        | none => rfl
        | some v => rw [hm] at h; simp at h
      rw [subPlain_skip umap hnone, ih h.2]

theorem subGroup_id_of_no_match (gmap : List (String × String))
    (l : List Char) (h : hasMatch matchGroupRef l = false) :
    subGroup gmap l = l := by
  induction l with
  | nil => rfl
  | cons c cs ih =>
      simp only [hasMatch, Bool.or_eq_false_iff] at h
      have hnone : matchGroupRef (c :: cs) = none := by
        cases hm : matchGroupRef (c :: cs) with
        | none => rfl
        | some v => rw [hm] at h; simp at h
      rw [subGroup_skip gmap hnone, ih h.2]

/-- C7. Each kind of mention token in message text — user reference
`<@U…>`/`<@W…>`, plain identifier reference `<U…>`, group reference
`<!subteam^…>` — is replaced by `resolve_text` with the mapped display
name when the identifier is in the corresponding map, and otherwise with
the raw identifier itself (`get(id, id)`), with the surrounding text kept
and no error possible (the function is total). Stated for a resolved name
free of the token delimiters, so that the replacement is not itself
rewritten by a later pass. -/
theorem c7_mention_resolution :
    (∀ (umap gmap : List (String × String)) (a b : String) (c : Char)
        (rest : List Char), (c = 'U' ∨ c = 'W') → rest ≠ [] →
        (∀ x ∈ rest, isRunChar x = true) → '<' ∉ a.data →
        '<' ∉ ((dget umap (String.mk (c :: rest))).getD
          (String.mk (c :: rest))).data →
      resolve_text (a ++ "<@" ++ String.mk (c :: rest) ++ ">" ++ b) umap gmap =
        a ++ "@" ++ (dget umap (String.mk (c :: rest))).getD
          (String.mk (c :: rest)) ++ resolve_text b umap gmap) ∧
    (∀ (umap gmap : List (String × String)) (a b : String) (rest : List Char),
        rest ≠ [] → (∀ x ∈ rest, isRunChar x = true) → '<' ∉ a.data →
        '<' ∉ ((dget umap (String.mk ('U' :: rest))).getD
          (String.mk ('U' :: rest))).data →
        '!' ∉ ((dget umap (String.mk ('U' :: rest))).getD
          (String.mk ('U' :: rest))).data →
      resolve_text (a ++ "<" ++ String.mk ('U' :: rest) ++ ">" ++ b) umap gmap =
        a ++ "<" ++ (dget umap (String.mk ('U' :: rest))).getD
          (String.mk ('U' :: rest)) ++ ">" ++ resolve_text b umap gmap) ∧
    (∀ (umap gmap : List (String × String)) (a b : String) (run : List Char),
        run ≠ [] → (∀ x ∈ run, isRunChar x = true) → '<' ∉ a.data →
      resolve_text (a ++ "<!subteam^" ++ String.mk run ++ ">" ++ b) umap gmap =
        a ++ "@" ++ (dget gmap (String.mk run)).getD (String.mk run) ++
          resolve_text b umap gmap) :=
  ⟨fun umap gmap a b c rest hc hne hrun ha hname =>
      resolve_user_tok umap gmap a b c rest hc hne hrun ha hname,
    fun umap gmap a b rest hne hrun ha hname hbang =>
      resolve_plain_tok umap gmap a b rest hne hrun ha hname hbang,
    fun umap gmap a b run hne hrun ha =>
      resolve_group_tok umap gmap a b run hne hrun ha⟩

/-- C7 witness: a known user reference resolves to the display name, an
unknown plain reference falls back to the raw identifier, and a known
group reference resolves. -/
theorem c7_mention_resolution_witness :
    resolve_text ("hi " ++ "<@" ++ String.mk ['U', '1', '2', '3'] ++ ">" ++
        " bye") [("U123", "alice")] [] = "hi @alice bye" ∧
    resolve_text ("" ++ "<" ++ String.mk ['U', 'A', 'B', 'C'] ++ ">" ++ "")
        [] [] = "<UABC>" ∧
    resolve_text ("go " ++ "<!subteam^" ++ String.mk ['S', 'Q', 'X', '1'] ++
        ">" ++ " now") [] [("SQX1", "devs")] = "go @devs now" := by
  refine ⟨?_, ?_, ?_⟩
  · have h := c7_mention_resolution.1 [("U123", "alice")] [] "hi " " bye" 'U'
      ['1', '2', '3'] (Or.inl rfl) (by decide) (by decide) (by decide)
      (by decide)
    rw [h]
    apply String.ext
    decide
  · have h := c7_mention_resolution.2.1 [] [] "" "" ['A', 'B', 'C']
      (by decide) (by decide) (by decide) (by decide) (by decide)
    rw [h]
    apply String.ext
    decide
  · have h := c7_mention_resolution.2.2 [] [("SQX1", "devs")] "go " " now"
      ['S', 'Q', 'X', '1'] (by decide) (by decide) (by decide)
    rw [h]
    apply String.ext
    decide

/-- C8. On text containing no mention token — no substring matching the
user-reference, plain-identifier, or group-reference regex —
`resolve_text` returns its input unchanged for any user and group maps;
hence resolution is idempotent on such text. -/
theorem c8_no_token_identity (txt : String)
    (umap gmap : List (String × String))
    (h : containsMention txt.data = false) :
    resolve_text txt umap gmap = txt ∧
    resolve_text (resolve_text txt umap gmap) umap gmap =
      resolve_text txt umap gmap := by
  simp only [containsMention, Bool.or_eq_false_iff] at h
  have hres : resolve_text txt umap gmap = txt := by
    apply String.ext
    show subGroup gmap (subPlain umap (subUser umap txt.data)) = txt.data
    rw [subUser_id_of_no_match umap txt.data h.1.1,
      subPlain_id_of_no_match umap txt.data h.1.2,
      subGroup_id_of_no_match gmap txt.data h.2]
  refine ⟨hres, ?_⟩
  rw [hres]
  exact hres

/-- C8 witness: token-free text is returned unchanged and resolution is
idempotent on it. -/
theorem c8_no_token_identity_witness :
    resolve_text "hello @world, see <3" [("U1", "x")] [("G1", "y")] =
      "hello @world, see <3" ∧
    resolve_text (resolve_text "hello @world, see <3" [("U1", "x")]
        [("G1", "y")]) [("U1", "x")] [("G1", "y")] =
      resolve_text "hello @world, see <3" [("U1", "x")] [("G1", "y")] :=
  c8_no_token_identity "hello @world, see <3" [("U1", "x")] [("G1", "y")]
    (by decide)

theorem isDigitCh_digitChar10 (n : Nat) : isDigitCh (digitChar10 n) = true := by
  unfold digitChar10
  have h : n % 10 < 10 := Nat.mod_lt _ (by norm_num)
  generalize hk : n % 10 = k at h ⊢
  interval_cases k <;> decide

theorem tsFormatOK_fmt_ts (t : ℚ) : tsFormatOK (fmt_ts t) = true := by
  have hdata : (fmt_ts t).data =
      [digitChar10 ((civilFromDays (Int.ediv ⌊t⌋ 86400)).1.toNat / 1000),
        digitChar10 ((civilFromDays (Int.ediv ⌊t⌋ 86400)).1.toNat / 100),
        digitChar10 ((civilFromDays (Int.ediv ⌊t⌋ 86400)).1.toNat / 10),
        digitChar10 (civilFromDays (Int.ediv ⌊t⌋ 86400)).1.toNat, '-',
        digitChar10 ((civilFromDays (Int.ediv ⌊t⌋ 86400)).2.1 / 10),
        digitChar10 (civilFromDays (Int.ediv ⌊t⌋ 86400)).2.1, '-',
        digitChar10 ((civilFromDays (Int.ediv ⌊t⌋ 86400)).2.2 / 10),
        digitChar10 (civilFromDays (Int.ediv ⌊t⌋ 86400)).2.2, ' ',
        digitChar10 ((Int.emod ⌊t⌋ 86400).toNat / 3600 / 10),
        digitChar10 ((Int.emod ⌊t⌋ 86400).toNat / 3600), ':',
        digitChar10 ((Int.emod ⌊t⌋ 86400).toNat % 3600 / 60 / 10),
        digitChar10 ((Int.emod ⌊t⌋ 86400).toNat % 3600 / 60), ':',
        digitChar10 ((Int.emod ⌊t⌋ 86400).toNat % 60 / 10),
        digitChar10 ((Int.emod ⌊t⌋ 86400).toNat % 60)] := by
    simp [fmt_ts, String.data_append, pad4, pad2]
  unfold tsFormatOK
  rw [hdata]
  simp [isDigitCh_digitChar10]

/-- C9. Every string written by `write_channel` for a message is of the
form `[fmt_ts] <author> text` followed by the blank separator line, with
thread-reply lines additionally prefixed by four spaces and the arrow
marker; and the bracketed part — the message timestamp formatted to
seconds — always has the digit pattern `YYYY-MM-DD HH:MM:SS`. -/
theorem c9_line_format :
    (∀ (messages : List Message) (threads : List (ℚ × List Message))
        (resolve : Bool) (umap gmap : List (String × String)) (line : String),
      line ∈ write_channel messages threads resolve umap gmap →
      ∃ (isR : Bool) (m : Message),
        line = (if isR then "    ↳ " else "") ++ "[" ++ fmt_ts m.ts ++ "] <" ++
          authorName umap m ++ "> " ++
          (if resolve then resolve_text (m.text.getD "") umap gmap
            else m.text.getD "") ++ "\n\n") ∧
    (∀ t : ℚ, tsFormatOK (fmt_ts t) = true) := by
  constructor
  · intro messages threads resolve umap gmap line hline
    rcases List.mem_map.mp hline with ⟨e, he, hrend⟩
    exact ⟨e.isReply, e.msg, hrend.symm⟩
  · exact tsFormatOK_fmt_ts

/-- C9 witness: the single line written for one plain message, and the
format check at a concrete timestamp. -/
theorem c9_line_format_witness :
    (∃ (isR : Bool) (m : Message),
      "[2021-01-01 00:00:00] <unknown> hi\n\n" =
        (if isR then "    ↳ " else "") ++ "[" ++ fmt_ts m.ts ++ "] <" ++
          authorName [] m ++ "> " ++
          (if false then resolve_text (m.text.getD "") [] [] else
            m.text.getD "") ++ "\n\n") ∧
    tsFormatOK (fmt_ts 1609459200) = true := by
  constructor
  · exact c9_line_format.1 [⟨1609459200, none, some "hi", none, none⟩] []
      false [] [] "[2021-01-01 00:00:00] <unknown> hi\n\n"
      (by apply List.mem_singleton.mpr; apply String.ext; decide)
  · exact c9_line_format.2 1609459200
